import Mathlib

/-
  Verification development for the genome-comparison aggregation module
  (genomics_compareGenomes.py) of multiPhATE2.

  The Python classes comparison / genome / gene_protein and the methods
  addHit2genome, loadBestHits, findGenomes, parseReportFiles, loadParalogs,
  addParalog2genome, genome.addParalog, parseDirectories and writeCoreGenome
  are shallowly embedded as pure functions over explicit state.  Fallible
  Python code (uncaught IndexError / ValueError / AttributeError / NameError /
  FileNotFoundError, which abort the whole run) is modelled with Option:
  `none` means the run raises and terminates.
-/

set_option maxRecDepth 4000
set_option synthInstance.maxSize 512

namespace Genomics

/-! ## String utilities modelling the Python primitives used by the module -/

/-- Python `s.split(c)` for a single-character separator: keeps empty
segments, and `"".split(c)` gives one empty segment. -/
def splitChAux (c : Char) : List Char → List (List Char)
  | [] => [[]]
  | a :: as =>
    match splitChAux c as with
    | h :: t => if a = c then [] :: h :: t else (a :: h) :: t
    | [] => [[]]

/-- Python single-character split on a String. -/
def splitChar (c : Char) (s : String) : List String :=
  (splitChAux c s.data).map String.mk

/-- Does `pat` match at the head of `s`? -/
def prefixMatch : List Char → List Char → Bool
  | [], _ => true
  | _ :: _, [] => false
  | p :: ps, c :: cs => p == c && prefixMatch ps cs

/-- Python `pat in s` / `re.search` of a literal pattern: substring test. -/
def containsSubCh (pat : List Char) : List Char → Bool
  | [] => prefixMatch pat []
  | c :: cs => prefixMatch pat (c :: cs) || containsSubCh pat cs

/-- `containsSub s pat` models `re.search(pat, s)` for a literal `pat`. -/
def containsSub (s pat : String) : Bool :=
  containsSubCh pat.data s.data

/-- Models `s.startswith(pat)` / an anchored regex. -/
def startsWithStr (s pat : String) : Bool :=
  prefixMatch pat.data s.data

/-- Models `re.search("\\d", s)`: the first decimal digit of `s`, if any. -/
def firstDigit (s : String) : Option Char :=
  s.data.find? (fun c => decide ('0' ≤ c) && decide (c ≤ '9'))

/-- Python `s.split(sep)` for a non-empty multi-character separator,
with fuel (the recursion consumes at least one character per step, so
`s.length` fuel always suffices). -/
def splitSeqAux (pat : List Char) : Nat → List Char → List Char → List (List Char)
  | 0, acc, s => [acc.reverse ++ s]
  | _ + 1, acc, [] => [acc.reverse]
  | fuel + 1, acc, a :: as =>
    if prefixMatch pat (a :: as) then
      acc.reverse :: splitSeqAux pat fuel [] (List.drop (pat.length - 1) as)
    else
      splitSeqAux pat fuel (a :: acc) as

/-- Python `s.split(sep)` on Strings. -/
def splitSeqStr (s sep : String) : List String :=
  (splitSeqAux sep.data s.data.length [] s.data).map String.mk

/-- Python tuple unpacking `(a, b) = s.split(sep)`: `none` models the
ValueError raised when the split does not yield exactly two parts. -/
def split2 (s sep : String) : Option (String × String) :=
  match splitSeqStr s sep with
  | [a, b] => some (a, b)
  | _ => none

/-- Tuple unpacking of a single-character split. -/
def split2Char (s : String) (c : Char) : Option (String × String) :=
  match splitChar c s with
  | [a, b] => some (a, b)
  | _ => none

/-- Models `os.path.basename`: the part after the last slash. -/
def basename (s : String) : String :=
  (splitChar '/' s).getLastD ""

/-- A regex modelled as a list of single-character predicates
(`\s` becomes a whitespace predicate, a literal becomes equality). -/
def charP (a : Char) : Char → Bool := fun c => c == a

/-- The characters `\s` matches that can occur inside one line of a
text file read with splitlines (space and tab). -/
def wsP : Char → Bool := fun c => c == ' ' || c == '\t'

/-- The literal part of a character-predicate pattern. -/
def patOf (s : String) : List (Char → Bool) :=
  s.data.map charP

/-- Does the predicate pattern match at the head of `s`? -/
def prefixMatchP : List (Char → Bool) → List Char → Bool
  | [], _ => true
  | _ :: _, [] => false
  | p :: ps, c :: cs => p c && prefixMatchP ps cs

/-- Models an unanchored `re.search` of a predicate pattern. -/
def containsPat (pat : List (Char → Bool)) : List Char → Bool
  | [] => prefixMatchP pat []
  | c :: cs => prefixMatchP pat (c :: cs) || containsPat pat cs

/-- Models `(cds, geneNumber) = header.split('/')[0].split('cds')`:
`none` is the ValueError when the cds-split is not exactly two parts. -/
def parseCdsNumber (header : String) : Option String :=
  match split2 ((splitChar '/' header).headD "") "cds" with
  | some (_, n) => some n
  | none => none

/-! ## The data model (classes gene_protein, paralogSet, genome, comparison) -/

/-- Class gene_protein.  `number` is assigned the string produced by the
cds-split in addHit2genome; its Python initial value 0 is modelled as "0". -/
structure gene_protein where
  type : String := "gene"
  name : String := ""
  identifier : String := ""
  cgpHeader : String := ""
  number : String := "0"
  parentGenome : String := ""
  contigName : String := ""
  annotation : String := ""
  isLoner : Bool := true
  mutualBestHitList : List String := []
  singularBestHitList : List String := []
  correspondenceList : List String := []
  lonerList : List String := []
  groupList : List String := []
  paralogList : List String := []
deriving DecidableEq, Inhabited

/-- Class paralogSet (held by genome.paralogList; never written by the
modelled methods). -/
structure paralogSet where
  paralogType : String := "unknown"
  paralogList : List String := []
  setSize : Nat := 0
deriving DecidableEq, Inhabited

/-- Class genome.  `file` is the attribute parseDirectories assigns
dynamically (`nextGenome.file = genomeFastaList[i]`). -/
structure genome where
  name : String := ""
  species : String := ""
  isReference : Bool := false
  file : String := ""
  contigList : List String := []
  geneList : List gene_protein := []
  proteinList : List gene_protein := []
  paralogList : List paralogSet := []
deriving DecidableEq, Inhabited

/-- The dataArgs dictionary passed to addHit2genome / addParalog2genome. -/
structure dataArgs where
  genome1 : String := ""
  genome2 : String := ""
  contig1 : String := ""
  contig2 : String := ""
  gene1 : String := ""
  gene2 : String := ""
  protein1 : String := ""
  protein2 : String := ""
  geneCall1 : String := ""
  geneCall2 : String := ""
  annotations1 : String := ""
  annotations2 : String := ""
  hitType : String := ""
  hitFlavor : String := ""
deriving DecidableEq, Inhabited

/-- Class comparison: the mutable state addHit2genome operates on.  The
shared gene and protein template objects are part of the state because
addHit2genome can mutate them through a stale alias (see addHitCore). -/
structure comparison where
  name : String := "multiPhATE2"
  referenceGenome : String := ""
  genomeCount : Nat := 0
  genomeList : List genome := []
  genomeTemplate : genome := {}
  geneTemplate : gene_protein := { type := "gene" }
  proteinTemplate : gene_protein := { type := "protein" }
deriving DecidableEq, Inhabited

/-- The state comparison.__init__ builds. -/
def comparison_init : comparison := {}

/-! ## List helpers (functional stand-ins for in-place mutation) -/

/-- Replace the element at an index by `f` of it (no-op out of range). -/
def modifyNth (f : α → α) : Nat → List α → List α
  | _, [] => []
  | 0, a :: as => f a :: as
  | n + 1, a :: as => a :: modifyNth f n as

/-- Index of the first element satisfying `p` (a Python for-loop with break). -/
def findIndex (p : α → Bool) : List α → Option Nat
  | [] => none
  | a :: as => if p a then some 0 else (findIndex p as).map (· + 1)

/-! ## addHit2genome

The method dispatches on `hitFlavor` ("gene" → geneList, "protein" →
proteinList) and then runs two symmetric phases, one per side of the hit.
Inside a phase the Python variable `gene_obj` / `protein_obj` holds the
object the hit lines mutate.  It starts as an alias of the shared flavor
template, is rebound by the GENOME_ONE phase (to the found or newly
created side-1 object), but the GENOME_TWO lookup loop uses a different
variable (`geneObj` / `proteinObj`): when the side-2 entity is FOUND, the
hit is appended to whatever `gene_obj` still refers to - the side-1
object, or the template itself when side 1 was absent.  `objRef` records
that reference explicitly. -/

/-- gene versus protein mode of addHit2genome. -/
inductive flavor where
  | gene
  | protein
deriving DecidableEq

/-- The list the flavor operates on. -/
def genome.listOf (g : genome) : flavor → List gene_protein
  | .gene => g.geneList
  | .protein => g.proteinList

/-- Replace the flavor's list. -/
def genome.setListOf (g : genome) : flavor → List gene_protein → genome
  | .gene, l => { g with geneList := l }
  | .protein, l => { g with proteinList := l }

/-- The shared template object of the flavor. -/
def comparison.templateOf (st : comparison) : flavor → gene_protein
  | .gene => st.geneTemplate
  | .protein => st.proteinTemplate

/-- Replace the flavor's template (the template is mutated when a hit is
misdirected to the stale alias of it). -/
def comparison.setTemplateOf (st : comparison) : flavor → gene_protein → comparison
  | .gene, t => { st with geneTemplate := t }
  | .protein, t => { st with proteinTemplate := t }

/-- The string stored in the `type` field on creation. -/
def flavor.str : flavor → String
  | .gene => "gene"
  | .protein => "protein"

/-- What the Python variable gene_obj / protein_obj refers to. -/
inductive objRef where
  | tmpl
  | stored (gi li : Nat)
deriving DecidableEq

/-- Apply the in-place mutation `f` to the object `r` refers to. -/
def applyRef (fl : flavor) (st : comparison) (r : objRef) (f : gene_protein → gene_protein) :
    comparison :=
  match r with
  | .tmpl => st.setTemplateOf fl (f (st.templateOf fl))
  | .stored gi li =>
    { st with genomeList :=
        modifyNth (fun g => g.setListOf fl (modifyNth f li (g.listOf fl))) gi st.genomeList }

/-- The hit lines of one phase: `if match_mutual: append; isLoner := False`,
`if match_singular and query side matches: append; isLoner := False`,
`if match_loner and query side matches: lonerList.append(lonName)`. -/
def mutHit (doMut doSing doLon : Bool) (mutAdd singAdd lonName : String)
    (e : gene_protein) : gene_protein :=
  let e := if doMut then
      { e with mutualBestHitList := e.mutualBestHitList ++ [mutAdd], isLoner := false }
    else e
  let e := if doSing then
      { e with singularBestHitList := e.singularBestHitList ++ [singAdd], isLoner := false }
    else e
  if doLon then { e with lonerList := e.lonerList ++ [lonName] } else e

/-- Create and populate a new gene/protein object: deepcopy of the current
template with the identity fields overwritten (isLoner and the hit lists are
inherited from the template). -/
def mkNew (tmpl : gene_protein) (fl : flavor) (hdr idStr parent ctg ann num : String) :
    gene_protein :=
  { tmpl with
    name := hdr
    type := fl.str
    identifier := idStr
    cgpHeader := hdr
    number := num
    parentGenome := parent
    contigName := ctg
    annotation := ann }

/-- The per-call data addHit2genome computes before its two phases:
which sides are active, the identity fields of each side, and the exact
strings each side's mutual/singular appends record (these differ between
the gene and protein branches of the source: the protein GENOME_ONE
mutual append records `gene2id`, which is the empty string in protein
mode). -/
structure hitParams where
  side1 : Bool
  side2 : Bool
  genomeName1 : String
  genomeName2 : String
  contig1 : String
  contig2 : String
  header1 : String
  header2 : String
  mutAdd1 : String
  singAdd1 : String
  mutAdd2 : String
  singAdd2 : String
  ann1 : String
  ann2 : String
  id1 : String
  id2 : String
deriving DecidableEq

/-- Append a new entity to the flavor list of the genome at index `gi`. -/
def appendNew (fl : flavor) (st : comparison) (gi : Nat) (e : gene_protein) : comparison :=
  { st with genomeList :=
      modifyNth (fun g => g.setListOf fl ((g.listOf fl) ++ [e])) gi st.genomeList }

/-- The hit lines of the GENOME_ONE block: the flags come from the hit
type, the appended strings from the side-1 parameters, and the loner line
records the name of the genome object found for genome1. -/
def mut1Of (hitType : String) (p : hitParams) (nm : String) : gene_protein → gene_protein :=
  mutHit (containsSub hitType "mutual")
    (containsSub hitType "singular" && (firstDigit hitType == some '1'))
    (containsSub hitType "loner" && (firstDigit hitType == some '1'))
    p.mutAdd1 p.singAdd1 nm

/-- The hit lines of the GENOME_TWO block: query side '2', and the loner
line records dataArgs["genome1"]. -/
def mut2Of (hitType : String) (p : hitParams) : gene_protein → gene_protein :=
  mutHit (containsSub hitType "mutual")
    (containsSub hitType "singular" && (firstDigit hitType == some '2'))
    (containsSub hitType "loner" && (firstDigit hitType == some '2'))
    p.mutAdd2 p.singAdd2 p.genomeName1

/-- `match_query.group(0)` is evaluated whenever the hit type mentions
singular or loner: with no digit in the hit type this raises on None. -/
def crashQOf (hitType : String) : Bool :=
  (containsSub hitType "singular" || containsSub hitType "loner")
    && (firstDigit hitType).isNone

/-- The entity an active side looks up: same contig name and short name. -/
def entKey (ctg hdr : String) (e : gene_protein) : Bool :=
  e.contigName == ctg && e.name == hdr

/-- The GENOME_ONE block of addHit2genome.  `none` models an uncaught
exception: AttributeError when findGenomeObject returned None, ValueError
when the cds-split of a new header fails, AttributeError when a
singular/loner hit type carries no digit.  Returns the new state and what
the gene_obj / protein_obj variable refers to afterwards. -/
def addHitPhase1 (fl : flavor) (st : comparison) (hitType : String) (p : hitParams) :
    Option (comparison × objRef) :=
  if p.side1 then
    if crashQOf hitType then none else
    match findIndex (fun g => g.name == p.genomeName1) st.genomeList with
    | none => none
    | some gi =>
      match st.genomeList.get? gi with
      | none => none
      | some g =>
        match findIndex (entKey p.contig1 p.header1) (g.listOf fl) with
        | some li =>
          some (applyRef fl st (.stored gi li) (mut1Of hitType p g.name), .stored gi li)
        | none =>
          match parseCdsNumber p.header1 with
          | none => none
          | some num =>
            let newE := mut1Of hitType p g.name
              (mkNew (st.templateOf fl) fl p.header1 p.id1 p.genomeName1 p.contig1 p.ann1 num)
            some (appendNew fl st gi newE, .stored gi (g.listOf fl).length)
  else some (st, .tmpl)

/-- The GENOME_TWO block.  Its lookup loop uses a different variable, so in
the found case the hit lines mutate the object `ref1` still refers to (the
side-1 object, or the flavor template when side 1 was absent); only a newly
created side-2 object receives the hit itself. -/
def addHitPhase2 (fl : flavor) (st1 : comparison) (ref1 : objRef) (hitType : String)
    (p : hitParams) : Option comparison :=
  if p.side2 then
    if crashQOf hitType then none else
    match findIndex (fun g => g.name == p.genomeName2) st1.genomeList with
    | none => none
    | some gi2 =>
      match st1.genomeList.get? gi2 with
      | none => none
      | some g2 =>
        match findIndex (entKey p.contig2 p.header2) (g2.listOf fl) with
        | some _ => some (applyRef fl st1 ref1 (mut2Of hitType p))
        | none =>
          match parseCdsNumber p.header2 with
          | none => none
          | some num =>
            let newE := mut2Of hitType p
              (mkNew (st1.templateOf fl) fl p.header2 p.id2 p.genomeName2 p.contig2 p.ann2 num)
            some (appendNew fl st1 gi2 newE)
  else some st1

/-- The two phases of addHit2genome, for either flavor. -/
def addHitCore (fl : flavor) (st : comparison) (hitType : String) (p : hitParams) :
    Option comparison :=
  match addHitPhase1 fl st hitType p with
  | none => none
  | some (st1, ref1) => addHitPhase2 fl st1 ref1 hitType p

/-- comparison.addHit2genome.  The identifiers are
`genomeName + ':' + contigName + ':' + header`, computed only for active
sides; in the protein branch the GENOME_ONE mutual append records
`gene2id`, which the protein branch never assigns, so it is "". -/
def comparison.addHit2genome (st : comparison) (d : dataArgs) : Option comparison :=
  if d.hitFlavor == "gene" then
    let act1 := d.gene1 != ""
    let act2 := d.gene2 != ""
    let gene1id := if act1 then d.genome1 ++ ":" ++ d.contig1 ++ ":" ++ d.gene1 else ""
    let gene2id := if act2 then d.genome2 ++ ":" ++ d.contig2 ++ ":" ++ d.gene2 else ""
    addHitCore .gene st d.hitType
      { side1 := act1, side2 := act2
        genomeName1 := d.genome1, genomeName2 := d.genome2
        contig1 := d.contig1, contig2 := d.contig2
        header1 := d.gene1, header2 := d.gene2
        mutAdd1 := gene2id, singAdd1 := gene2id
        mutAdd2 := gene1id, singAdd2 := gene1id
        ann1 := d.annotations1, ann2 := d.annotations2
        id1 := gene1id, id2 := gene2id }
  else if d.hitFlavor == "protein" then
    let act1 := d.protein1 != ""
    let act2 := d.protein2 != ""
    let protein1id := if act1 then d.genome1 ++ ":" ++ d.contig1 ++ ":" ++ d.protein1 else ""
    let protein2id := if act2 then d.genome2 ++ ":" ++ d.contig2 ++ ":" ++ d.protein2 else ""
    let gene2id := ""
    addHitCore .protein st d.hitType
      { side1 := act1, side2 := act2
        genomeName1 := d.genome1, genomeName2 := d.genome2
        contig1 := d.contig1, contig2 := d.contig2
        header1 := d.protein1, header2 := d.protein2
        mutAdd1 := gene2id, singAdd1 := protein2id
        mutAdd2 := protein1id, singAdd2 := protein1id
        ann1 := d.annotations1, ann2 := d.annotations2
        id1 := protein1id, id2 := protein2id }
  else some st

/-! ## Paralogs (genome.addParalog, comparison.addParalog2genome) -/

/-- The inner loop of genome.addParalog over the genome's geneList: the
identifier of the first gene matching the subject header that is not yet in
the paralog list is appended (the `break` runs only after an append; a match
whose identifier is already present is skipped and scanning continues). -/
def paralogScan (gl : List gene_protein) (plist : List String) (hdr2 : String) :
    List String :=
  match gl with
  | [] => plist
  | g2 :: rest =>
    if g2.cgpHeader == hdr2 then
      if plist.contains g2.identifier then paralogScan rest plist hdr2
      else plist ++ [g2.identifier]
    else paralogScan rest plist hdr2

/-- genome.addParalog.  Only the gene branch assigns the headers looked up:
for a hitType without "gene" (e.g. "protein_paralog") the local gene1/gene2
stay "", so the scan looks for an empty cgpHeader.  Each gene whose header
equals gene1 gets the scan result (the outer loop has no break). -/
def genome.addParalog (g : genome) (d : dataArgs) : genome :=
  let gene1 := if containsSub d.hitType "gene" then d.gene1 else ""
  let gene2 := if containsSub d.hitType "gene" then d.gene2 else ""
  { g with geneList := g.geneList.map (fun g1 =>
      if g1.cgpHeader == gene1 then
        { g1 with paralogList := paralogScan g.geneList g1.paralogList gene2 }
      else g1) }

/-- comparison.addParalog2genome: apply addParalog to the first genome whose
name is dataArgs["genome1"] (no-op when none matches). -/
def comparison.addParalog2genome (st : comparison) (d : dataArgs) : comparison :=
  match findIndex (fun g => g.name == d.genome1) st.genomeList with
  | some gi => { st with genomeList := modifyNth (fun g => g.addParalog d) gi st.genomeList }
  | none => st

/-! ## Report-file parsing (comparison.loadBestHits) -/

/-- Report file column positions (fixed schema). -/
def GENOME_TYPE : Nat := 1
def G1_HEADER : Nat := 9
def G1_CONTIG : Nat := 10
def G1_ANNOTATIONS : Nat := 11
def G2_HEADER : Nat := 16
def G2_CONTIG : Nat := 17
def G2_ANNOTATIONS : Nat := 18

/-- Modelled abstraction of comparison.getGeneCallString, which runs
`ast.literal_eval(inString)[0]`: for a Python list literal of single-quoted
strings the first element is returned; any other input raises (none).  The
value is only computed for non-empty annotation columns and is never read by
addHit2genome, so only the success/raise distinction is load-bearing. -/
def comparison.getGeneCallString (s : String) : Option String :=
  match s.data with
  | '[' :: '\'' :: rest => some (String.mk (rest.takeWhile (fun c => c ≠ '\'')))
  | _ => none

/-- The anchored pattern `^#PROTEIN\sHITS` that flips gene rows to protein
rows. -/
def protHitLine (line : String) : Bool :=
  prefixMatchP (patOf "#PROTEIN" ++ [wsP] ++ patOf "HITS") line.data

/-- The dataArgs record a data row hands to addHit2genome, given the hit
type, the PROTEIN flag and the six extracted columns. -/
def rowArgs (g1 g2 : String) (PROTEIN : Bool) (hitType h1 c1 a1 h2 c2 a2 gc1 gc2 : String) :
    dataArgs :=
  if PROTEIN then
    { genome1 := g1, genome2 := g2, contig1 := c1, contig2 := c2
      gene1 := "", gene2 := "", protein1 := h1, protein2 := h2
      geneCall1 := gc1, geneCall2 := gc2, annotations1 := a1, annotations2 := a2
      hitType := hitType, hitFlavor := "protein" }
  else
    { genome1 := g1, genome2 := g2, contig1 := c1, contig2 := c2
      gene1 := h1, gene2 := h2, protein1 := "", protein2 := ""
      geneCall1 := gc1, geneCall2 := gc2, annotations1 := a1, annotations2 := a2
      hitType := hitType, hitFlavor := "gene" }

/-- The hit type assembled from the tag's two tokens: kind plus query side,
or (with only a warning) the empty string for an unrecognized genome token. -/
def hitTypeOf (genomeNum hitKind : String) : String :=
  if genomeNum == "genome1" then hitKind ++ "1"
  else if genomeNum == "genome2" then hitKind ++ "2"
  else ""

/-- One iteration of the loadBestHits row loop.  Comment rows only toggle
the PROTEIN flag.  A data row is split on tabs; unpacking the hit-type tag
into exactly two tokens raises otherwise (none); an unrecognized genome
token only warns, leaving hitType empty, and the row is still handed to
addHit2genome.  Missing columns raise IndexError (none). -/
def processReportLine (g1 g2 : String) (acc : comparison × Bool) (line : String) :
    Option (comparison × Bool) :=
  if startsWithStr line "#" then
    some (acc.1, acc.2 || protHitLine line)
  else
    let fields := splitChar '\t' line
    ((fields.get? GENOME_TYPE).bind fun tag =>
      (split2Char tag '_').bind fun gnht =>
      (fields.get? G1_HEADER).bind fun h1 =>
      (fields.get? G1_CONTIG).bind fun c1 =>
      (fields.get? G1_ANNOTATIONS).bind fun a1 =>
      (fields.get? G2_HEADER).bind fun h2 =>
      (fields.get? G2_CONTIG).bind fun c2 =>
      (fields.get? G2_ANNOTATIONS).bind fun a2 =>
      ((if a1 != "" then comparison.getGeneCallString a1 else some "")).bind fun gc1 =>
      ((if a2 != "" then comparison.getGeneCallString a2 else some "")).bind fun gc2 =>
      (acc.1.addHit2genome
        (rowArgs g1 g2 acc.2 (hitTypeOf gnht.1 gnht.2) h1 c1 a1 h2 c2 a2 gc1 gc2)).bind
        fun st' =>
      some (st', acc.2))

/-- comparison.loadBestHits over the report file's lines (the file already
split by splitlines). -/
def comparison.loadBestHits (st : comparison) (g1 g2 : String) (rLines : List String) :
    Option comparison :=
  (rLines.foldlM (processReportLine g1 g2) (st, false)).bind fun r => some r.1

/-! ## Log-file parsing (comparison.findGenomes, parseDirectories discovery) -/

/-- The pattern `genome\sfile\s#1:`. -/
def gfPat1 : List (Char → Bool) :=
  patOf "genome" ++ [wsP] ++ patOf "file" ++ [wsP] ++ patOf "#1:"

/-- The pattern `genome\sfile\s#2:`. -/
def gfPat2 : List (Char → Bool) :=
  patOf "genome" ++ [wsP] ++ patOf "file" ++ [wsP] ++ patOf "#2:"

/-- The pattern `genome\sfile` used by parseDirectories. -/
def gfPat : List (Char → Bool) :=
  patOf "genome" ++ [wsP] ++ patOf "file"

/-- Extract the genome name from a log line: split on ": " (exactly two
parts or ValueError), basename of the path, split the filename on "." into
exactly (stem, extension). -/
def genomeNameOfLine (line : String) : Option String :=
  (split2 line ": ").bind fun pr =>
  (split2 (basename pr.2) ".").bind fun ge =>
  some ge.1

/-- comparison.findGenomes on the log file's lines: the last line matching
`genome file #1:` / `#2:` determines genome1 / genome2 ("" if none). -/
def comparison.findGenomes (lLines : List String) : Option (String × String) :=
  lLines.foldlM (fun (gs : String × String) line =>
    ((if containsPat gfPat1 line.data then
        (genomeNameOfLine line).bind fun g1 => some (g1, gs.2)
      else some gs).bind fun gs1 =>
    if containsPat gfPat2 line.data then
      (genomeNameOfLine line).bind fun g2 => some (gs1.1, g2)
    else some gs1)) ("", "")

/-! ## Paralog-file parsing (comparison.loadParalogs) -/

/-- The rolling state of the loadParalogs line loop.  `query` and `subject`
are Python locals first assigned inside the hit-line branch: Option none
models the NameError raised if they are read before any hit line was seen. -/
structure paraState where
  st : comparison
  GENE : Bool := false
  PROTEIN : Bool := false
  query : Option String := none
  subject : Option String := none
  dArgs : dataArgs := { hitType := "" }
deriving Inhabited

/-- The dataArgs value loadParalogs resets to after committing a paralog. -/
def paralogResetArgs : dataArgs := { hitType := "paralog" }

/-- The query/subject tokens after a line: a hit line ("query:") needs at
least nine tab fields and re-assigns both from the colon-splits of its
first two fields; any other line leaves them as they were. -/
def paralogQS (ps : paraState) (line : String) : Option (Option String × Option String) :=
  if containsSub line "query:" then
    let fields := splitChar '\t' line
    if fields.length < 9 then none
    else
      (split2Char (fields.getD 0 "") ':').bind fun pq =>
      (split2Char (fields.getD 1 "") ':').bind fun pt =>
      some (some pq.2, some pt.2)
  else some (ps.query, ps.subject)

/-- The dataArgs update of one paralog line: with the GENE (or PROTEIN) flag
set, query and subject are copied into the record (NameError, none, while
they are unassigned). -/
def paralogArgs (GENE PROTEIN : Bool) (q s : Option String) (dA : dataArgs) :
    Option dataArgs :=
  if GENE then
    q.bind fun qv => s.bind fun sv =>
      some { dA with gene1 := qv, gene2 := sv, hitType := "gene_paralog" }
  else if PROTEIN then
    q.bind fun qv => s.bind fun sv =>
      some { dA with protein1 := qv, protein2 := sv, hitType := "protein_paralog" }
  else some dA

/-- One iteration of the loadParalogs loop.  A line containing "PARALOGS"
raises NameError (the code reads the never-assigned variable `genomePath`).
Once the GENE (or PROTEIN) flag is set, every following non-comment line
copies query/subject into dataArgs, raising NameError while they are
unassigned.  A line containing "coverage:" commits the record via
addParalog2genome and resets the rolling state. -/
def processParalogLine (ps : paraState) (line : String) : Option paraState :=
  if startsWithStr line "#" || line == "" then some ps
  else if containsSub line "PARALOGS" then none
  else
    let GENE := ps.GENE || containsPat (patOf "Gene" ++ [wsP] ++ patOf "Paralogs") line.data
    let PROTEIN :=
      ps.PROTEIN || containsPat (patOf "Protein" ++ [wsP] ++ patOf "Paralogs") line.data
    (paralogQS ps line).bind fun qs =>
    (paralogArgs GENE PROTEIN qs.1 qs.2 ps.dArgs).bind fun d =>
    if containsSub line "coverage:" then
      some { st := ps.st.addParalog2genome d
             GENE := false, PROTEIN := false
             query := some "", subject := some ""
             dArgs := paralogResetArgs }
    else
      some { ps with
             GENE := GENE, PROTEIN := PROTEIN
             query := qs.1, subject := qs.2
             dArgs := d }

/-- comparison.loadParalogs over the paralog file's lines. -/
def comparison.loadParalogs (st : comparison) (pLines : List String) : Option comparison :=
  (pLines.foldlM processParalogLine { st := st }).bind fun r => some r.st

/-! ## Result-set traversal (comparison.parseReportFiles) -/

/-- One CGP result directory as the parser sees it: the contents of the log,
report and paralog files, `none` when the file is absent (open() then raises
FileNotFoundError, modelled as the whole run returning none). -/
structure resultSet where
  log : Option (List String) := none
  report : Option (List String) := none
  paralog : Option (List String) := none

/-- Processing of one result set inside parseReportFiles: findGenomes reads
the log, then loadBestHits reads the report, then loadParalogs reads the
paralog file. -/
def processResultSet (st : comparison) (s : resultSet) : Option comparison :=
  s.log.bind fun lg =>
  (comparison.findGenomes lg).bind fun gg =>
  s.report.bind fun rep =>
  (st.loadBestHits gg.1 gg.2 rep).bind fun st1 =>
  s.paralog.bind fun par =>
  st1.loadParalogs par

/-- comparison.parseReportFiles over all result sets, in discovery order. -/
def comparison.parseReportFiles (st : comparison) : List resultSet → Option comparison
  | [] => some st
  | s :: rest => (processResultSet st s).bind fun st' => st'.parseReportFiles rest

/-! ## Genome discovery (comparison.parseDirectories, lines 213-258) -/

/-- The rolling discovery state: the non-redundant fasta-file list, the
non-redundant genome-name list and the reference name. -/
structure discoveryState where
  fastaList : List String := []
  gList : List String := []
  ref : String := ""
deriving DecidableEq, Inhabited

/-- One log line of the discovery walk: a line matching `genome\sfile`
contributes its fasta basename (non-redundantly) and its stem (the genome
name, non-redundantly); the stem split raises unless exactly two parts. -/
def discoverLine (s : discoveryState) (line : String) : Option discoveryState :=
  if containsPat gfPat line.data then
    (split2 line ": ").bind fun pr =>
    let genomeFasta := basename pr.2
    let fl := if s.fastaList.contains genomeFasta then s.fastaList
      else s.fastaList ++ [genomeFasta]
    (split2 genomeFasta ".").bind fun ge =>
    let gl := if s.gList.contains ge.1 then s.gList else s.gList ++ [ge.1]
    some { s with fastaList := fl, gList := gl }
  else some s

/-- One directory of the discovery walk: fold its log lines, then (as the
source does after each directory) set the reference genome to the first
entry of the accumulated genome list if it is non-empty. -/
def discoverDir (s : discoveryState) (lines : List String) : Option discoveryState :=
  (lines.foldlM discoverLine s).bind fun s1 =>
  some { s1 with ref := match s1.gList with | g :: _ => g | [] => s1.ref }

/-- The genome-object construction loop: for each index of the genome-name
list, a deepcopy of the genome template with the name, the reference flag
(set exactly when the name equals the reference) and the fasta file at the
same index (IndexError, none, if the fasta list is shorter). -/
def buildGenomes (tmpl : genome) (ref : String) : List String → List String → Option (List genome)
  | [], _ => some []
  | _ :: _, [] => none
  | gname :: grest, f :: frest =>
    (buildGenomes tmpl ref grest frest).bind fun rest =>
    some ({ tmpl with name := gname, isReference := gname == ref, file := f } :: rest)

/-- comparison.parseDirectories, up to (and not including) its final call to
parseReportFiles: each directory's log is scanned for genome names, the
reference genome is fixed, and one genome object per discovered name is
appended to the genome list. -/
def comparison.parseDirectories (st : comparison) (dirLogs : List (List String)) :
    Option comparison :=
  (dirLogs.foldlM discoverDir { ref := st.referenceGenome }).bind fun s =>
  (buildGenomes st.genomeTemplate s.ref s.gList s.fastaList).bind fun gs =>
  some { st with referenceGenome := s.ref, genomeList := st.genomeList ++ gs }

/-! ## Reporting views -/

/-- comparison.writeCoreGenome as a view: the genes printed are, for each
reference genome, the genes of its geneList whose mutualBestHitList has
exactly `len(genomeList) - 1` entries.  Proteins are never visited. -/
def comparison.writeCoreGenome (st : comparison) : List gene_protein :=
  (st.genomeList.filter (fun g => g.isReference)).flatMap
    (fun g => g.geneList.filter
      (fun e => e.mutualBestHitList.length == st.genomeList.length - 1))

/-! ## Whole-run operation sequences -/

/-- One model-mutating operation of the data-load phase: a report row handed
to addHit2genome, or a committed paralog record handed to addParalog2genome. -/
inductive gOp where
  | hit (d : dataArgs)
  | paralog (d : dataArgs)

/-- Apply one operation. -/
def comparison.applyOp (st : comparison) : gOp → Option comparison
  | .hit d => st.addHit2genome d
  | .paralog d => some (st.addParalog2genome d)

/-- Run a sequence of operations, aborting (none) at the first uncaught
exception. -/
def comparison.runOps (st : comparison) : List gOp → Option comparison
  | [] => some st
  | op :: ops =>
    match st.applyOp op with
    | none => none
    | some st' => st'.runOps ops

/-! ## List lemmas -/

theorem modifyNth_length (f : α → α) (n : Nat) (l : List α) :
    (modifyNth f n l).length = l.length := by
  induction l generalizing n with
  | nil => cases n <;> rfl
  | cons a as ih =>
    cases n with
    | zero => rfl
    | succ m => simpa [modifyNth] using ih m

theorem get?_modifyNth (f : α → α) (n i : Nat) (l : List α) :
    (modifyNth f n l).get? i = if i = n then (l.get? i).map f else l.get? i := by
  induction l generalizing n i with
  | nil => simp [modifyNth]
  | cons a as ih =>
    cases n with
    | zero =>
      cases i with
      | zero => simp [modifyNth]
      | succ j => simp [modifyNth]
    | succ m =>
      cases i with
      | zero => simp [modifyNth]
      | succ j =>
        simp only [modifyNth, List.get?_cons_succ, ih m j]
        by_cases h : j = m <;> simp [h]

theorem mem_modifyNth {f : α → α} {n : Nat} {l : List α} {a : α} :
    a ∈ modifyNth f n l → a ∈ l ∨ ∃ b, b ∈ l ∧ a = f b := by
  induction l generalizing n with
  | nil => intro h; exact absurd h (by simp [modifyNth])
  | cons c cs ih =>
    cases n with
    | zero =>
      intro h
      rcases List.mem_cons.mp h with h | h
      · exact Or.inr ⟨c, List.mem_cons_self c cs, h⟩
      · exact Or.inl (List.mem_cons_of_mem c h)
    | succ m =>
      intro h
      rcases List.mem_cons.mp h with h | h
      · exact Or.inl (h ▸ List.mem_cons_self c cs)
      · rcases ih h with h | ⟨b, hb, hab⟩
        · exact Or.inl (List.mem_cons_of_mem c h)
        · exact Or.inr ⟨b, List.mem_cons_of_mem c hb, hab⟩

theorem mem_modifyNth_get? {f : α → α} {n : Nat} {l : List α} {a : α}
    (h : a ∈ modifyNth f n l) : a ∈ l ∨ ∃ b, l.get? n = some b ∧ a = f b := by
  induction l generalizing n with
  | nil => exact absurd h (by cases n <;> simp [modifyNth])
  | cons c cs ih =>
    cases n with
    | zero =>
      rcases List.mem_cons.mp h with h | h
      · exact Or.inr ⟨c, rfl, h⟩
      · exact Or.inl (List.mem_cons_of_mem c h)
    | succ m =>
      rcases List.mem_cons.mp h with h | h
      · exact Or.inl (h ▸ List.mem_cons_self c cs)
      · rcases ih h with h | ⟨b, hb, hab⟩
        · exact Or.inl (List.mem_cons_of_mem c h)
        · exact Or.inr ⟨b, hb, hab⟩

theorem map_modifyNth_of_inv (f : α → α) (k : α → β) (hk : ∀ a, k (f a) = k a)
    (n : Nat) (l : List α) : (modifyNth f n l).map k = l.map k := by
  induction l generalizing n with
  | nil => cases n <;> rfl
  | cons a as ih =>
    cases n with
    | zero => simp [modifyNth, hk]
    | succ m => simp [modifyNth, ih m]

theorem findIndex_some {p : α → Bool} {l : List α} {i : Nat} :
    findIndex p l = some i → ∃ a, l.get? i = some a ∧ p a = true := by
  induction l generalizing i with
  | nil => intro h; exact absurd h (by simp [findIndex])
  | cons a as ih =>
    intro h
    by_cases hp : p a = true
    · simp only [findIndex, hp, if_pos] at h
      cases h
      exact ⟨a, rfl, hp⟩
    · simp only [findIndex, hp, if_neg, Bool.not_eq_true] at h
      rcases Option.map_eq_some'.mp h with ⟨j, hj, rfl⟩
      rcases ih hj with ⟨b, hb, hpb⟩
      exact ⟨b, hb, hpb⟩

theorem findIndex_none {p : α → Bool} {l : List α} :
    findIndex p l = none → ∀ a ∈ l, p a = false := by
  induction l with
  | nil => intro _ a ha; exact absurd ha (by simp)
  | cons c cs ih =>
    intro h a ha
    by_cases hp : p c = true
    · simp [findIndex, hp] at h
    · simp only [findIndex, hp, if_neg, Bool.not_eq_true, Option.map_eq_none'] at h
      rcases List.mem_cons.mp ha with rfl | ha
      · exact Bool.not_eq_true _ |>.mp hp
      · exact ih h a ha

theorem exists_get?_of_lt {l : List α} {i : Nat} (h : i < l.length) :
    ∃ a, l.get? i = some a := by
  induction l generalizing i with
  | nil => exact absurd h (by simp)
  | cons a as ih =>
    cases i with
    | zero => exact ⟨a, rfl⟩
    | succ j => exact ih (Nat.lt_of_succ_lt_succ h)

theorem get?_lt_length {l : List α} {i : Nat} {a : α} (h : l.get? i = some a) :
    i < l.length := by
  induction l generalizing i with
  | nil => simp at h
  | cons c cs ih =>
    cases i with
    | zero => simp
    | succ j => exact Nat.succ_lt_succ (ih h)

theorem nodup_get?_inj {l : List α} (hd : l.Nodup) {i j : Nat} {a : α}
    (hi : l.get? i = some a) (hj : l.get? j = some a) : i = j := by
  induction l generalizing i j with
  | nil => simp at hi
  | cons c cs ih =>
    rcases List.nodup_cons.mp hd with ⟨hc, hcs⟩
    cases i with
    | zero =>
      cases j with
      | zero => rfl
      | succ j' =>
        rw [List.get?_cons_zero] at hi
        rw [List.get?_cons_succ] at hj
        injection hi with h
        subst h
        exact absurd (List.get?_mem hj) hc
    | succ i' =>
      cases j with
      | zero =>
        rw [List.get?_cons_zero] at hj
        rw [List.get?_cons_succ] at hi
        injection hj with h
        subst h
        exact absurd (List.get?_mem hi) hc
      | succ j' =>
        rw [List.get?_cons_succ] at hi hj
        exact congrArg Nat.succ (ih hcs hi hj)

theorem append_singleton_not_isEmpty (l : List α) (x : α) :
    (l ++ [x]).isEmpty = false := by
  cases l <;> rfl

/-! ## Structural lemmas about the state operations -/

theorem listOf_setListOf (g : genome) (fl : flavor) (l : List gene_protein) :
    (g.setListOf fl l).listOf fl = l := by
  cases fl <;> rfl

theorem listOf_setListOf_other (g : genome) (fl fl' : flavor) (l : List gene_protein)
    (h : fl' ≠ fl) : (g.setListOf fl l).listOf fl' = g.listOf fl' := by
  cases fl <;> cases fl' <;> first | rfl | exact absurd rfl h

theorem name_setListOf (g : genome) (fl : flavor) (l : List gene_protein) :
    (g.setListOf fl l).name = g.name := by
  cases fl <;> rfl

theorem genomeList_setTemplateOf (st : comparison) (fl : flavor) (t : gene_protein) :
    (st.setTemplateOf fl t).genomeList = st.genomeList := by
  cases fl <;> rfl

/-- A per-entity property holding of both templates and of every entity of
every genome: the induction invariant all entity-level claims use. -/
def stPred (P : gene_protein → Prop) (st : comparison) : Prop :=
  P st.geneTemplate ∧ P st.proteinTemplate ∧
    ∀ g ∈ st.genomeList, ∀ fl, ∀ e ∈ g.listOf fl, P e

theorem stPred_templateOf {P : gene_protein → Prop} {st : comparison} (h : stPred P st)
    (fl : flavor) : P (st.templateOf fl) := by
  cases fl
  · exact h.1
  · exact h.2.1

theorem stPred_setListOf {P : gene_protein → Prop} {g : genome} {fl : flavor}
    {l : List gene_protein} (hg : ∀ fl', ∀ e ∈ g.listOf fl', P e) (hl : ∀ e ∈ l, P e) :
    ∀ fl', ∀ e ∈ (g.setListOf fl l).listOf fl', P e := by
  intro fl' e he
  by_cases hfl : fl' = fl
  · subst hfl
    rw [listOf_setListOf] at he
    exact hl e he
  · rw [listOf_setListOf_other _ _ _ _ hfl] at he
    exact hg fl' e he

theorem stPred_applyRef {P : gene_protein → Prop} {st : comparison} {fl : flavor} {r : objRef}
    {f : gene_protein → gene_protein} (h : stPred P st) (hf : ∀ e, P e → P (f e)) :
    stPred P (applyRef fl st r f) := by
  cases r with
  | tmpl =>
    cases fl
    · exact ⟨hf _ h.1, h.2.1, by
        intro g hg
        exact h.2.2 g (by simpa [applyRef, comparison.setTemplateOf] using hg)⟩
    · exact ⟨h.1, hf _ h.2.1, by
        intro g hg
        exact h.2.2 g (by simpa [applyRef, comparison.setTemplateOf] using hg)⟩
  | stored gi li =>
    refine ⟨h.1, h.2.1, ?_⟩
    intro g hg
    rcases mem_modifyNth hg with hg | ⟨b, hb, rfl⟩
    · exact h.2.2 g hg
    · exact stPred_setListOf (h.2.2 b hb) (by
        intro e he
        rcases mem_modifyNth he with he | ⟨c, hc, rfl⟩
        · exact h.2.2 b hb fl e he
        · exact hf c (h.2.2 b hb fl c hc))

theorem stPred_appendNew {P : gene_protein → Prop} {st : comparison} {fl : flavor} {gi : Nat}
    {e : gene_protein} (h : stPred P st) (he : P e) : stPred P (appendNew fl st gi e) := by
  refine ⟨h.1, h.2.1, ?_⟩
  intro g hg
  rcases mem_modifyNth hg with hg | ⟨b, hb, rfl⟩
  · exact h.2.2 g hg
  · exact stPred_setListOf (h.2.2 b hb) (by
      intro x hx
      rcases List.mem_append.mp hx with hx | hx
      · exact h.2.2 b hb fl x hx
      · rw [List.mem_singleton.mp hx]
        exact he)

theorem stPred_mkNew {P : gene_protein → Prop} {tmpl : gene_protein}
    (hP : ∀ t hdr idStr parent ctg ann num fl, P t → P (mkNew t fl hdr idStr parent ctg ann num))
    (h : P tmpl) (fl : flavor) (hdr idStr parent ctg ann num : String) :
    P (mkNew tmpl fl hdr idStr parent ctg ann num) :=
  hP tmpl hdr idStr parent ctg ann num fl h

/-! ## Characterization of the two addHit2genome phases -/

theorem addHitPhase1_eq_some {fl : flavor} {st : comparison} {hitType : String} {p : hitParams}
    {st1 : comparison} {r : objRef} (h : addHitPhase1 fl st hitType p = some (st1, r)) :
    (st1 = st ∧ r = .tmpl) ∨
    (∃ gi g li, st.genomeList.get? gi = some g ∧
      findIndex (entKey p.contig1 p.header1) (g.listOf fl) = some li ∧
      st1 = applyRef fl st (.stored gi li) (mut1Of hitType p g.name) ∧ r = .stored gi li) ∨
    (∃ gi g num, st.genomeList.get? gi = some g ∧
      findIndex (entKey p.contig1 p.header1) (g.listOf fl) = none ∧
      parseCdsNumber p.header1 = some num ∧
      st1 = appendNew fl st gi (mut1Of hitType p g.name
        (mkNew (st.templateOf fl) fl p.header1 p.id1 p.genomeName1 p.contig1 p.ann1 num)) ∧
      r = .stored gi (g.listOf fl).length) := by
  unfold addHitPhase1 at h
  split at h
  · split at h
    · exact absurd h (by simp)
    · split at h
      · exact absurd h (by simp)
      · rename_i gi hgi
        split at h
        · exact absurd h (by simp)
        · rename_i g hget
          split at h
          · rename_i li hfe
            injection h with h'
            injection h' with h1 h2
            exact Or.inr (Or.inl ⟨gi, g, li, hget, hfe, h1.symm, h2.symm⟩)
          · rename_i hfe
            split at h
            · exact absurd h (by simp)
            · rename_i num hnum
              simp only at h
              injection h with h'
              injection h' with h1 h2
              exact Or.inr (Or.inr ⟨gi, g, num, hget, hfe, hnum, h1.symm, h2.symm⟩)
  · injection h with h'
    injection h' with h1 h2
    exact Or.inl ⟨h1.symm, h2.symm⟩

theorem addHitPhase2_eq_some {fl : flavor} {st1 : comparison} {ref1 : objRef}
    {hitType : String} {p : hitParams} {st2 : comparison}
    (h : addHitPhase2 fl st1 ref1 hitType p = some st2) :
    st2 = st1 ∨
    st2 = applyRef fl st1 ref1 (mut2Of hitType p) ∨
    (∃ gi g num, st1.genomeList.get? gi = some g ∧
      findIndex (entKey p.contig2 p.header2) (g.listOf fl) = none ∧
      parseCdsNumber p.header2 = some num ∧
      st2 = appendNew fl st1 gi (mut2Of hitType p
        (mkNew (st1.templateOf fl) fl p.header2 p.id2 p.genomeName2 p.contig2 p.ann2 num))) := by
  unfold addHitPhase2 at h
  split at h
  · split at h
    · exact absurd h (by simp)
    · split at h
      · exact absurd h (by simp)
      · rename_i gi2 hgi2
        split at h
        · exact absurd h (by simp)
        · rename_i g2 hget
          split at h
          · injection h with h'
            exact Or.inr (Or.inl h'.symm)
          · rename_i hfe
            split at h
            · exact absurd h (by simp)
            · rename_i num hnum
              simp only at h
              injection h with h'
              exact Or.inr (Or.inr ⟨gi2, g2, num, hget, hfe, hnum, h'.symm⟩)
  · injection h with h'
    exact Or.inl h'.symm

/-! ## stPred preservation through the model-mutating operations -/

theorem stPred_addHitCore {P : gene_protein → Prop} {fl : flavor} {st : comparison}
    {hitType : String} {p : hitParams} {st' : comparison} (h : stPred P st)
    (hmut : ∀ a b c x y z e, P e → P (mutHit a b c x y z e))
    (hnew : ∀ t fla hdr idStr parent ctg ann num, P t → P (mkNew t fla hdr idStr parent ctg ann num))
    (hc : addHitCore fl st hitType p = some st') : stPred P st' := by
  unfold addHitCore at hc
  cases h1 : addHitPhase1 fl st hitType p with
  | none => rw [h1] at hc; exact absurd hc (by simp)
  | some pr =>
    rw [h1] at hc
    obtain ⟨st1, r⟩ := pr
    have hst1 : stPred P st1 := by
      rcases addHitPhase1_eq_some h1 with ⟨rfl, _⟩ | ⟨gi, g, li, _, _, rfl, _⟩ |
          ⟨gi, g, num, _, _, _, rfl, _⟩
      · exact h
      · exact stPred_applyRef h (fun e he => hmut _ _ _ _ _ _ e he)
      · exact stPred_appendNew h
          (hmut _ _ _ _ _ _ _ (hnew _ _ _ _ _ _ _ _ (stPred_templateOf h fl)))
    rcases addHitPhase2_eq_some hc with rfl | rfl | ⟨gi, g, num, _, _, _, rfl⟩
    · exact hst1
    · exact stPred_applyRef hst1 (fun e he => hmut _ _ _ _ _ _ e he)
    · exact stPred_appendNew hst1
        (hmut _ _ _ _ _ _ _ (hnew _ _ _ _ _ _ _ _ (stPred_templateOf hst1 fl)))

theorem stPred_addHit2genome {P : gene_protein → Prop} {st : comparison} {d : dataArgs}
    {st' : comparison} (h : stPred P st)
    (hmut : ∀ a b c x y z e, P e → P (mutHit a b c x y z e))
    (hnew : ∀ t fla hdr idStr parent ctg ann num, P t → P (mkNew t fla hdr idStr parent ctg ann num))
    (hc : st.addHit2genome d = some st') : stPred P st' := by
  unfold comparison.addHit2genome at hc
  split at hc
  · exact stPred_addHitCore h hmut hnew hc
  · split at hc
    · exact stPred_addHitCore h hmut hnew hc
    · injection hc with h'
      exact h' ▸ h

theorem stPred_addParalog {P : gene_protein → Prop} {g : genome} {d : dataArgs}
    (hg : ∀ fl, ∀ e ∈ g.listOf fl, P e)
    (hP : ∀ e pl, P e → P { e with paralogList := pl }) :
    ∀ fl, ∀ e ∈ (g.addParalog d).listOf fl, P e := by
  intro fl e he
  cases fl with
  | gene =>
    simp only [genome.addParalog, genome.listOf, List.mem_map] at he
    rcases he with ⟨b, hb, rfl⟩
    split <;> split <;> exact hP b _ (hg .gene b hb)
  | protein =>
    simp only [genome.addParalog, genome.listOf] at he ⊢
    exact hg .protein e he

theorem stPred_addParalog2genome {P : gene_protein → Prop} {st : comparison} {d : dataArgs}
    (h : stPred P st) (hP : ∀ e pl, P e → P { e with paralogList := pl }) :
    stPred P (st.addParalog2genome d) := by
  unfold comparison.addParalog2genome
  split
  · refine ⟨h.1, h.2.1, ?_⟩
    intro g hg
    rcases mem_modifyNth hg with hg | ⟨b, hb, rfl⟩
    · exact h.2.2 g hg
    · exact stPred_addParalog (h.2.2 b hb) hP
  · exact h

/-! ## Relation plumbing: any reflexive transitive relation respected by
addHit2genome and addParalog2genome is respected by loadBestHits,
loadParalogs, processResultSet and parseReportFiles. -/

/-- The hypotheses of the relation plumbing: a reflexive transitive relation
respected by every addHit2genome success and every addParalog2genome call. -/
def stepRel (R : comparison → comparison → Prop) : Prop :=
  (∀ s, R s s) ∧
  (∀ s t u, R s t → R t u → R s u) ∧
  (∀ st d st', comparison.addHit2genome st d = some st' → R st st') ∧
  (∀ st d, R st (st.addParalog2genome d))

theorem rel_processReportLine {R : comparison → comparison → Prop} (hR : stepRel R)
    {g1 g2 : String} {acc : comparison × Bool} {line : String}
    {res : comparison × Bool} (h : processReportLine g1 g2 acc line = some res) :
    R acc.1 res.1 := by
  unfold processReportLine at h
  by_cases hcom : startsWithStr line "#" = true
  · rw [if_pos hcom] at h
    injection h with h'
    exact h' ▸ hR.1 acc.1
  · rw [if_neg hcom] at h
    rcases Option.bind_eq_some.mp h with ⟨tag, _, h⟩
    rcases Option.bind_eq_some.mp h with ⟨gnht, _, h⟩
    rcases Option.bind_eq_some.mp h with ⟨h1, _, h⟩
    rcases Option.bind_eq_some.mp h with ⟨c1, _, h⟩
    rcases Option.bind_eq_some.mp h with ⟨a1, _, h⟩
    rcases Option.bind_eq_some.mp h with ⟨h2, _, h⟩
    rcases Option.bind_eq_some.mp h with ⟨c2, _, h⟩
    rcases Option.bind_eq_some.mp h with ⟨a2, _, h⟩
    rcases Option.bind_eq_some.mp h with ⟨gc1, _, h⟩
    rcases Option.bind_eq_some.mp h with ⟨gc2, _, h⟩
    rcases Option.bind_eq_some.mp h with ⟨st2, hst2, hres⟩
    injection hres with h'
    exact h' ▸ hR.2.2.1 _ _ _ hst2

theorem rel_foldReportLines {R : comparison → comparison → Prop} (hR : stepRel R)
    {g1 g2 : String} (lines : List String) :
    ∀ {acc res : comparison × Bool},
      List.foldlM (processReportLine g1 g2) acc lines = some res → R acc.1 res.1 := by
  induction lines with
  | nil =>
    intro acc res h
    rw [List.foldlM_nil] at h
    injection h with h'
    exact h' ▸ hR.1 acc.1
  | cons l ls ih =>
    intro acc res h
    rw [List.foldlM_cons] at h
    cases hl : processReportLine g1 g2 acc l with
    | none => rw [hl] at h; exact absurd h (by simp)
    | some acc' =>
      rw [hl] at h
      exact hR.2.1 _ _ _ (rel_processReportLine hR hl) (ih h)

theorem rel_loadBestHits {R : comparison → comparison → Prop} (hR : stepRel R)
    {st : comparison} {g1 g2 : String} {lines : List String}
    {st' : comparison} (h : st.loadBestHits g1 g2 lines = some st') : R st st' := by
  unfold comparison.loadBestHits at h
  cases hf : List.foldlM (processReportLine g1 g2) (st, false) lines with
  | none => rw [hf] at h; exact absurd h (by simp)
  | some res =>
    rw [hf] at h
    injection h with h'
    exact h' ▸ rel_foldReportLines hR lines hf

theorem rel_processParalogLine {R : comparison → comparison → Prop} (hR : stepRel R)
    {ps ps' : paraState} {line : String}
    (h : processParalogLine ps line = some ps') : R ps.st ps'.st := by
  unfold processParalogLine at h
  split at h
  · injection h with h'
    exact h' ▸ hR.1 ps.st
  · split at h
    · exact absurd h (by simp)
    · rcases Option.bind_eq_some.mp h with ⟨qs, _, h⟩
      rcases Option.bind_eq_some.mp h with ⟨d, _, hres⟩
      split at hres
      · injection hres with h'
        exact h' ▸ hR.2.2.2 ps.st d
      · injection hres with h'
        exact h' ▸ hR.1 ps.st

theorem rel_foldParalogLines {R : comparison → comparison → Prop} (hR : stepRel R)
    (lines : List String) :
    ∀ {ps ps' : paraState}, List.foldlM processParalogLine ps lines = some ps' →
      R ps.st ps'.st := by
  induction lines with
  | nil =>
    intro ps ps' h
    rw [List.foldlM_nil] at h
    injection h with h'
    exact h' ▸ hR.1 ps.st
  | cons l ls ih =>
    intro ps ps' h
    rw [List.foldlM_cons] at h
    cases hl : processParalogLine ps l with
    | none => rw [hl] at h; exact absurd h (by simp)
    | some ps1 =>
      rw [hl] at h
      exact hR.2.1 _ _ _ (rel_processParalogLine hR hl) (ih h)

theorem rel_loadParalogs {R : comparison → comparison → Prop} (hR : stepRel R)
    {st : comparison} {lines : List String} {st' : comparison}
    (h : st.loadParalogs lines = some st') : R st st' := by
  unfold comparison.loadParalogs at h
  cases hf : List.foldlM processParalogLine { st := st } lines with
  | none => rw [hf] at h; exact absurd h (by simp)
  | some res =>
    rw [hf] at h
    injection h with h'
    exact h' ▸ rel_foldParalogLines hR lines hf

theorem rel_processResultSet {R : comparison → comparison → Prop} (hR : stepRel R)
    {st : comparison} {s : resultSet} {st' : comparison}
    (h : processResultSet st s = some st') : R st st' := by
  unfold processResultSet at h
  simp only [Option.bind_eq_bind, Option.bind_eq_some] at h
  obtain ⟨lg, _, gg, _, rep, _, st1, hb, par, _, hp⟩ := h
  exact hR.2.1 _ _ _ (rel_loadBestHits hR hb) (rel_loadParalogs hR hp)

theorem rel_parseReportFiles {R : comparison → comparison → Prop} (hR : stepRel R)
    (sets : List resultSet) :
    ∀ {st st' : comparison}, st.parseReportFiles sets = some st' → R st st' := by
  induction sets with
  | nil =>
    intro st st' h
    unfold comparison.parseReportFiles at h
    injection h with h'
    exact h' ▸ hR.1 st
  | cons s rest ih =>
    intro st st' h
    unfold comparison.parseReportFiles at h
    rcases Option.bind_eq_some.mp h with ⟨st1, hs, h⟩
    exact hR.2.1 _ _ _ (rel_processResultSet hR hs) (ih h)

/-! ## Facts about the discovery walk of parseDirectories -/

/-- Modelled from the spec: "the first genome name encountered across all
result sets (in fixed discovery order)" is the stem of the fasta basename
of the first log line matching the genome-file pattern. -/
def firstGenomeNameOfLines (lines : List String) : Option String :=
  match lines.find? (fun line => containsPat gfPat line.data) with
  | some line => genomeNameOfLine line
  | none => none

/-- Modelled from the spec: the first genome name encountered across all
result-set logs in discovery order. -/
def specFirstGenomeName (dirLogs : List (List String)) : Option String :=
  firstGenomeNameOfLines (dirLogs.flatMap id)

theorem discoverLine_no_match {s : discoveryState} {line : String}
    (hm : containsPat gfPat line.data = false) : discoverLine s line = some s := by
  unfold discoverLine
  rw [if_neg (by simp [hm])]

theorem discoverLine_match {s s' : discoveryState} {line : String}
    (hm : containsPat gfPat line.data = true) (h : discoverLine s line = some s') :
    ∃ gname, genomeNameOfLine line = some gname ∧
      s'.ref = s.ref ∧
      s'.gList = (if s.gList.contains gname then s.gList else s.gList ++ [gname]) := by
  unfold discoverLine at h
  rw [if_pos hm] at h
  rcases Option.bind_eq_some.mp h with ⟨fp, hfp, h⟩
  rcases Option.bind_eq_some.mp h with ⟨ge, hge, h⟩
  injection h with h'
  refine ⟨ge.1, ?_, ?_, ?_⟩
  · unfold genomeNameOfLine
    rw [hfp]
    simp only [Option.some_bind, hge]
  · exact h' ▸ rfl
  · exact h' ▸ rfl

theorem discoverLine_cases {s s' : discoveryState} {line : String}
    (h : discoverLine s line = some s') :
    s'.ref = s.ref ∧ (s'.gList = s.gList ∨ ∃ g, s'.gList = s.gList ++ [g]) := by
  by_cases hm : containsPat gfPat line.data = true
  · rcases discoverLine_match hm h with ⟨g, _, href, hgl⟩
    refine ⟨href, ?_⟩
    rw [hgl]
    split
    · exact Or.inl rfl
    · exact Or.inr ⟨g, rfl⟩
  · rw [discoverLine_no_match (Bool.not_eq_true _ |>.mp hm)] at h
    injection h with h'
    exact h' ▸ ⟨rfl, Or.inl rfl⟩

theorem foldDiscover_ext (lines : List String) :
    ∀ {s s' : discoveryState}, List.foldlM discoverLine s lines = some s' →
      s'.ref = s.ref ∧ ∃ t, s'.gList = s.gList ++ t := by
  induction lines with
  | nil =>
    intro s s' h
    rw [List.foldlM_nil] at h
    injection h with h'
    exact h' ▸ ⟨rfl, [], by simp⟩
  | cons l ls ih =>
    intro s s' h
    rw [List.foldlM_cons] at h
    cases hl : discoverLine s l with
    | none => rw [hl] at h; exact absurd h (by simp)
    | some s1 =>
      rw [hl] at h
      rcases discoverLine_cases hl with ⟨href, hgl⟩
      rcases ih h with ⟨href', ⟨t, ht⟩⟩
      refine ⟨href'.trans href, ?_⟩
      rcases hgl with hgl | ⟨g, hgl⟩
      · exact ⟨t, by rw [ht, hgl]⟩
      · exact ⟨g :: t, by rw [ht, hgl]; simp⟩

theorem discoverLine_nodup {s s' : discoveryState} {line : String}
    (h : discoverLine s line = some s') (hs : s.gList.Nodup) : s'.gList.Nodup := by
  by_cases hm : containsPat gfPat line.data = true
  · rcases discoverLine_match hm h with ⟨g, _, _, hgl⟩
    rw [hgl]
    split
    · exact hs
    · rename_i hc
      simp only [List.nodup_append, List.nodup_singleton, List.disjoint_singleton]
      exact ⟨hs, trivial, by simpa using hc⟩
  · rw [discoverLine_no_match (Bool.not_eq_true _ |>.mp hm)] at h
    injection h with h'
    exact h' ▸ hs

theorem foldDiscover_nodup (lines : List String) :
    ∀ {s s' : discoveryState}, List.foldlM discoverLine s lines = some s' →
      s.gList.Nodup → s'.gList.Nodup := by
  induction lines with
  | nil =>
    intro s s' h hs
    rw [List.foldlM_nil] at h
    injection h with h'
    exact h' ▸ hs
  | cons l ls ih =>
    intro s s' h hs
    rw [List.foldlM_cons] at h
    cases hl : discoverLine s l with
    | none => rw [hl] at h; exact absurd h (by simp)
    | some s1 =>
      rw [hl] at h
      exact ih h (discoverLine_nodup hl hs)

theorem discoverDir_ext {s s' : discoveryState} {lines : List String}
    (h : discoverDir s lines = some s') :
    (∃ t, s'.gList = s.gList ++ t) ∧
    s'.ref = (match s'.gList with | g :: _ => g | [] => s.ref) ∧
    (s.gList.Nodup → s'.gList.Nodup) := by
  unfold discoverDir at h
  rcases Option.bind_eq_some.mp h with ⟨s1, hs1, h⟩
  injection h with h'
  rcases foldDiscover_ext lines hs1 with ⟨href, ⟨t, ht⟩⟩
  subst h'
  refine ⟨⟨t, ht⟩, by simp [href], fun hn => ?_⟩
  show s1.gList.Nodup
  exact foldDiscover_nodup lines hs1 hn

theorem foldDiscoverDirs_keep (dirs : List (List String)) :
    ∀ {s s' : discoveryState}, List.foldlM discoverDir s dirs = some s' →
      ∀ g t, s.gList = g :: t → s.ref = g →
        (∃ t', s'.gList = g :: t') ∧ s'.ref = g := by
  induction dirs with
  | nil =>
    intro s s' h g t hg hr
    rw [List.foldlM_nil] at h
    injection h with h'
    exact h' ▸ ⟨⟨t, hg⟩, hr⟩
  | cons d ds ih =>
    intro s s' h g t hg hr
    rw [List.foldlM_cons] at h
    cases hd : discoverDir s d with
    | none => rw [hd] at h; exact absurd h (by simp)
    | some s1 =>
      rw [hd] at h
      rcases discoverDir_ext hd with ⟨⟨t1, ht1⟩, href, _⟩
      rw [hg] at ht1
      have hg1 : s1.gList = g :: (t ++ t1) := by rw [ht1]; simp
      have hr1 : s1.ref = g := by rw [href, hg1]
      exact ih h g (t ++ t1) hg1 hr1

theorem foldDiscoverDirs_nodup (dirs : List (List String)) :
    ∀ {s s' : discoveryState}, List.foldlM discoverDir s dirs = some s' →
      s.gList.Nodup → s'.gList.Nodup := by
  induction dirs with
  | nil =>
    intro s s' h hs
    rw [List.foldlM_nil] at h
    injection h with h'
    exact h' ▸ hs
  | cons d ds ih =>
    intro s s' h hs
    rw [List.foldlM_cons] at h
    cases hd : discoverDir s d with
    | none => rw [hd] at h; exact absurd h (by simp)
    | some s1 =>
      rw [hd] at h
      exact ih h ((discoverDir_ext hd).2.2 hs)

theorem foldDiscoverDirs_ext (dirs : List (List String)) :
    ∀ {s s' : discoveryState}, List.foldlM discoverDir s dirs = some s' →
      ∃ t, s'.gList = s.gList ++ t := by
  induction dirs with
  | nil =>
    intro s s' h
    rw [List.foldlM_nil] at h
    injection h with h'
    exact h' ▸ ⟨[], by simp⟩
  | cons d ds ih =>
    intro s s' h
    rw [List.foldlM_cons] at h
    cases hd : discoverDir s d with
    | none => rw [hd] at h; exact absurd h (by simp)
    | some s1 =>
      rw [hd] at h
      rcases (discoverDir_ext hd).1 with ⟨t1, ht1⟩
      rcases ih h with ⟨t2, ht2⟩
      exact ⟨t1 ++ t2, by rw [ht2, ht1]; simp⟩

/-- The line predicate of the discovery walk. -/
def gfLineMatch (line : String) : Bool := containsPat gfPat line.data

theorem foldDiscover_first (lines : List String) :
    ∀ {s s' : discoveryState}, List.foldlM discoverLine s lines = some s' → s.gList = [] →
      (lines.find? gfLineMatch = none ∧ s'.gList = []) ∨
      (∃ g, firstGenomeNameOfLines lines = some g ∧ ∃ t, s'.gList = g :: t) := by
  induction lines with
  | nil =>
    intro s s' h hs
    rw [List.foldlM_nil] at h
    injection h with h'
    exact Or.inl ⟨rfl, h' ▸ hs⟩
  | cons l ls ih =>
    intro s s' h hs
    rw [List.foldlM_cons] at h
    cases hl : discoverLine s l with
    | none => rw [hl] at h; exact absurd h (by simp)
    | some s1 =>
      rw [hl] at h
      by_cases hm : containsPat gfPat l.data = true
      · rcases discoverLine_match hm hl with ⟨g, hg, _, hgl⟩
        have hgl1 : s1.gList = [g] := by
          rw [hgl, hs]
          simp
        rcases foldDiscover_ext ls h with ⟨_, ⟨t, ht⟩⟩
        refine Or.inr ⟨g, ?_, ⟨t, by rw [ht, hgl1]; simp⟩⟩
        unfold firstGenomeNameOfLines
        rw [List.find?_cons_of_pos _ (by simpa [gfLineMatch] using hm)]
        exact hg
      · have hm' : containsPat gfPat l.data = false := Bool.not_eq_true _ |>.mp hm
        rw [discoverLine_no_match hm'] at hl
        injection hl with hl'
        subst hl'
        rcases ih h hs with ⟨hfind, hnil⟩ | ⟨g, hg, ht⟩
        · exact Or.inl ⟨by
            rw [List.find?_cons_of_neg _ (by simpa [gfLineMatch] using hm')]
            exact hfind, hnil⟩
        · refine Or.inr ⟨g, ?_, ht⟩
          unfold firstGenomeNameOfLines at hg ⊢
          rw [List.find?_cons_of_neg _ (by simpa [gfLineMatch] using hm')]
          exact hg

theorem discoverDir_first {s s' : discoveryState} {lines : List String}
    (h : discoverDir s lines = some s') (hs : s.gList = []) :
    (lines.find? gfLineMatch = none ∧ s'.gList = []) ∨
    (∃ g, firstGenomeNameOfLines lines = some g ∧ ∃ t, s'.gList = g :: t) := by
  unfold discoverDir at h
  rcases Option.bind_eq_some.mp h with ⟨s1, hs1, h⟩
  injection h with h'
  subst h'
  rcases foldDiscover_first lines hs1 hs with ⟨hfind, hnil⟩ | ⟨g, hg, ⟨t, ht⟩⟩
  · exact Or.inl ⟨hfind, hnil⟩
  · exact Or.inr ⟨g, hg, ⟨t, ht⟩⟩

theorem firstGenomeNameOfLines_append (l1 l2 : List String) :
    firstGenomeNameOfLines (l1 ++ l2) =
      match l1.find? gfLineMatch with
      | some l => genomeNameOfLine l
      | none => firstGenomeNameOfLines l2 := by
  unfold firstGenomeNameOfLines
  rw [show (fun line => containsPat gfPat line.data) = gfLineMatch from rfl]
  rw [List.find?_append]
  cases h1 : l1.find? gfLineMatch with
  | some l => simp
  | none => simp

theorem foldDiscoverDirs_first (dirs : List (List String)) :
    ∀ {s s' : discoveryState}, List.foldlM discoverDir s dirs = some s' → s.gList = [] →
      ((dirs.flatMap id).find? gfLineMatch = none ∧ s'.gList = []) ∨
      (∃ g, specFirstGenomeName dirs = some g ∧ ∃ t, s'.gList = g :: t) := by
  induction dirs with
  | nil =>
    intro s s' h hs
    rw [List.foldlM_nil] at h
    injection h with h'
    exact Or.inl ⟨rfl, h' ▸ hs⟩
  | cons d ds ih =>
    intro s s' h hs
    rw [List.foldlM_cons] at h
    cases hd : discoverDir s d with
    | none => rw [hd] at h; exact absurd h (by simp)
    | some s1 =>
      rw [hd] at h
      rcases discoverDir_first hd hs with ⟨hfind, hnil⟩ | ⟨g, hg, ⟨t, ht⟩⟩
      · rcases ih h hnil with ⟨hfind2, hnil2⟩ | ⟨g, hg, ht⟩
        · refine Or.inl ⟨?_, hnil2⟩
          rw [List.flatMap_cons, List.find?_append]
          simp only [id_eq, hfind, Option.none_or]
          exact hfind2
        · refine Or.inr ⟨g, ?_, ht⟩
          unfold specFirstGenomeName at hg ⊢
          rw [List.flatMap_cons, firstGenomeNameOfLines_append]
          simp only [id_eq, hfind]
          exact hg
      · have hfd : d.find? gfLineMatch ≠ none := by
          unfold firstGenomeNameOfLines at hg
          intro hx
          rw [show (fun line => containsPat gfPat line.data) = gfLineMatch from rfl, hx] at hg
          exact absurd hg (by simp)
        rcases foldDiscoverDirs_ext ds h with ⟨t2, ht2⟩
        refine Or.inr ⟨g, ?_, ⟨t ++ t2, by rw [ht2, ht]; simp⟩⟩
        unfold specFirstGenomeName
        rw [List.flatMap_cons, firstGenomeNameOfLines_append]
        cases hf : d.find? gfLineMatch with
        | none => exact absurd hf hfd
        | some l =>
          have hgl : genomeNameOfLine l = some g := by
            unfold firstGenomeNameOfLines at hg
            rw [show (fun line => containsPat gfPat line.data) = gfLineMatch from rfl, hf] at hg
            simpa using hg
          simp only [id_eq, hf]
          exact hgl

theorem foldDiscoverDirs_ref_head (dirs : List (List String)) :
    ∀ {s s' : discoveryState}, List.foldlM discoverDir s dirs = some s' → s.gList = [] →
      ∀ g t, s'.gList = g :: t → s'.ref = g := by
  induction dirs with
  | nil =>
    intro s s' h hs g t hg
    rw [List.foldlM_nil] at h
    injection h with h'
    subst h'
    rw [hs] at hg
    exact absurd hg (by simp)
  | cons d ds ih =>
    intro s s' h hs g t hg
    rw [List.foldlM_cons] at h
    cases hd : discoverDir s d with
    | none => rw [hd] at h; exact absurd h (by simp)
    | some s1 =>
      rw [hd] at h
      rcases discoverDir_ext hd with ⟨⟨t1, ht1⟩, href, _⟩
      rw [hs] at ht1
      cases hc : s1.gList with
      | nil => exact ih h hc g t hg
      | cons g1 t1' =>
        have hr1 : s1.ref = g1 := by rw [href, hc]
        rcases foldDiscoverDirs_keep ds h g1 t1' hc hr1 with ⟨⟨t', ht'⟩, hr'⟩
        rw [ht'] at hg
        injection hg with hg1 _
        exact hg1 ▸ hr'

/-! ## Facts about the genome-object construction -/

theorem buildGenomes_spec (tmpl : genome) (ref : String) :
    ∀ (gl flst : List String) (gs : List genome), buildGenomes tmpl ref gl flst = some gs →
      gs.map genome.name = gl ∧
      ∀ g ∈ gs, g.isReference = (g.name == ref) ∧ (∀ fl, g.listOf fl = tmpl.listOf fl) := by
  intro gl
  induction gl with
  | nil =>
    intro flst gs h
    unfold buildGenomes at h
    injection h with h'
    subst h'
    exact ⟨rfl, by intro g hg; exact absurd hg (by simp)⟩
  | cons gname grest ih =>
    intro flst gs h
    cases flst with
    | nil => exact absurd h (by unfold buildGenomes; simp)
    | cons f frest =>
      unfold buildGenomes at h
      rcases Option.bind_eq_some.mp h with ⟨rest, hrest, h⟩
      injection h with h'
      subst h'
      rcases ih frest rest hrest with ⟨hmap, hall⟩
      refine ⟨by simp [hmap], ?_⟩
      intro g hg
      rcases List.mem_cons.mp hg with rfl | hg
      · exact ⟨rfl, fun fl => by cases fl <;> rfl⟩
      · exact hall g hg

theorem buildGenomes_refCount (tmpl : genome) (ref : String) :
    ∀ (gl flst : List String) (gs : List genome), buildGenomes tmpl ref gl flst = some gs →
      (gs.filter (fun g => g.isReference)).length =
        (gl.filter (fun n => n == ref)).length := by
  intro gl
  induction gl with
  | nil =>
    intro flst gs h
    unfold buildGenomes at h
    injection h with h'
    subst h'
    rfl
  | cons gname grest ih =>
    intro flst gs h
    cases flst with
    | nil => exact absurd h (by unfold buildGenomes; simp)
    | cons f frest =>
      unfold buildGenomes at h
      rcases Option.bind_eq_some.mp h with ⟨rest, hrest, h⟩
      injection h with h'
      subst h'
      rw [List.filter_cons, List.filter_cons]
      by_cases hr : (gname == ref) = true
      · simp only [hr]
        simp [ih frest rest hrest]
      · simp only [Bool.not_eq_true] at hr
        simp only [hr]
        simp [ih frest rest hrest]

theorem filter_beq_count_one {l : List String} {a : String} (hd : l.Nodup) (ha : a ∈ l) :
    (l.filter (fun n => n == a)).length = 1 := by
  induction l with
  | nil => exact absurd ha (by simp)
  | cons b bs ih =>
    rcases List.nodup_cons.mp hd with ⟨hb, hbs⟩
    rw [List.filter_cons]
    by_cases hba : (b == a) = true
    · have hba' : b = a := by simpa using hba
      subst hba'
      simp only [hba]
      have : bs.filter (fun n => n == b) = [] := by
        rw [List.filter_eq_nil_iff]
        intro x hx
        simp only [beq_iff_eq]
        intro hxa
        exact hb (hxa ▸ hx)
      simp [this]
    · simp only [Bool.not_eq_true] at hba
      simp only [hba]
      rcases List.mem_cons.mp ha with rfl | ha
      · simp at hba
      · exact ih hbs ha

theorem parseDirectories_eq_some {st : comparison} {dirLogs : List (List String)}
    {st0 : comparison} (h : st.parseDirectories dirLogs = some st0) :
    ∃ s gs,
      List.foldlM discoverDir ({ ref := st.referenceGenome } : discoveryState) dirLogs
        = some s ∧
      buildGenomes st.genomeTemplate s.ref s.gList s.fastaList = some gs ∧
      st0 = { st with referenceGenome := s.ref, genomeList := st.genomeList ++ gs } := by
  unfold comparison.parseDirectories at h
  rcases Option.bind_eq_some.mp h with ⟨s, hs, h⟩
  rcases Option.bind_eq_some.mp h with ⟨gs, hgs, h⟩
  injection h with h'
  exact ⟨s, gs, hs, hgs, h'.symm⟩

theorem stPred_parseDirectories {P : gene_protein → Prop} {st : comparison}
    {dirLogs : List (List String)} {st0 : comparison} (h : stPred P st)
    (htmpl : ∀ fl, ∀ e ∈ st.genomeTemplate.listOf fl, P e)
    (hp : st.parseDirectories dirLogs = some st0) : stPred P st0 := by
  rcases parseDirectories_eq_some hp with ⟨s, gs, _, hgs, rfl⟩
  refine ⟨h.1, h.2.1, ?_⟩
  intro g hg fl e he
  rcases List.mem_append.mp hg with hg | hg
  · exact h.2.2 g hg fl e he
  · rcases (buildGenomes_spec _ _ _ _ _ hgs).2 g hg with ⟨_, hlist⟩
    rw [hlist fl] at he
    exact htmpl fl e he

/-! ## C1: the loner flag agrees with the hit lists -/

/-- The per-entity invariant of C1: isLoner holds exactly when both hit
lists are empty. -/
def lonerOk (e : gene_protein) : Prop :=
  e.isLoner = (e.mutualBestHitList.isEmpty && e.singularBestHitList.isEmpty)

theorem lonerOk_mutHit (a b c : Bool) (x y z : String) {e : gene_protein} (h : lonerOk e) :
    lonerOk (mutHit a b c x y z e) := by
  unfold lonerOk at h ⊢
  unfold mutHit
  cases a <;> cases b <;> cases c <;>
    simp_all [append_singleton_not_isEmpty]

theorem lonerOk_mkNew {t : gene_protein} (h : lonerOk t)
    (fl : flavor) (hdr idStr parent ctg ann num : String) :
    lonerOk (mkNew t fl hdr idStr parent ctg ann num) := h

theorem lonerOk_paralogList {e : gene_protein} (pl : List String) (h : lonerOk e) :
    lonerOk { e with paralogList := pl } := h

/-- stPred lonerOk is respected by both mutating methods, hence by the
whole result-set traversal. -/
theorem lonerOk_stepRel :
    stepRel (fun st st' => stPred lonerOk st → stPred lonerOk st') := by
  refine ⟨fun s h => h, fun s t u h1 h2 h => h2 (h1 h), ?_, ?_⟩
  · intro st d st' hc h
    exact stPred_addHit2genome h (fun a b c x y z e he => lonerOk_mutHit a b c x y z he)
      (fun t fla hdr idStr parent ctg ann num ht =>
        lonerOk_mkNew ht fla hdr idStr parent ctg ann num) hc
  · intro st d h
    exact stPred_addParalog2genome h (fun e pl he => lonerOk_paralogList pl he)

/-- C1: For every genome registered in the comparison and every gene or
protein entity owned by it, after parseDirectories has built the genome
objects and parseReportFiles has processed all result sets through
loadBestHits/addHit2genome, isLoner is true exactly when both the
mutual-best-hit list and the singular-best-hit list are empty. -/
theorem C1_isLoner_iff_hit_lists_empty (dirLogs : List (List String))
    (sets : List resultSet) (st0 st' : comparison)
    (h0 : comparison_init.parseDirectories dirLogs = some st0)
    (h1 : st0.parseReportFiles sets = some st') :
    ∀ g ∈ st'.genomeList, ∀ fl, ∀ e ∈ g.listOf fl,
      e.isLoner = (e.mutualBestHitList.isEmpty && e.singularBestHitList.isEmpty) := by
  have hinit : stPred lonerOk comparison_init :=
    ⟨rfl, rfl, by intro g hg; exact absurd hg (by simp [comparison_init])⟩
  have h00 : stPred lonerOk st0 :=
    stPred_parseDirectories hinit
      (by intro fl e he; exact absurd he (by cases fl <;> simp [comparison_init, genome.listOf]))
      h0
  exact (rel_parseReportFiles lonerOk_stepRel sets h1 h00).2.2

/-! ## Concrete runs used by the witnesses and counterexamples -/

/-- The log file of the Results_A_B directory. -/
def logAB : List String :=
  ["genome file #1: /data/A.fasta", "genome file #2: /data/B.fasta"]

/-- The log file of the Results_A_C directory. -/
def logAC : List String :=
  ["genome file #1: /data/A.fasta", "genome file #2: /data/C.fasta"]

/-- A mutual-best gene data row of a report file (19 tab-separated columns,
empty annotation columns), hitting cds1 of contig Ac1 against cds1 of the
given genome-2 contig. -/
def mutRow (c2 : String) : String :=
  "1\tgenome1_mutual\tx\tx\tx\tx\tx\tx\tx\tcds1/+/1/99/\tAc1\t\tx\tx\tx\tx\tcds1/+/1/99/\t"
    ++ c2 ++ "\t"

/-- The Results_A_B result set: one mutual gene hit, no paralogs. -/
def setAB : resultSet :=
  { log := some logAB, report := some [mutRow "Bc1"], paralog := some [] }

/-- The Results_A_C result set: one mutual gene hit, no paralogs. -/
def setAC : resultSet :=
  { log := some logAC, report := some [mutRow "Cc1"], paralog := some [] }

/-- The directory logs of the concrete three-genome run. -/
def wLogs : List (List String) := [logAB, logAC]

/-- The result sets of the concrete three-genome run. -/
def wSets : List resultSet := [setAB, setAC]

/-- The state after parseDirectories on the concrete run. -/
def wSt0 : comparison := (comparison_init.parseDirectories wLogs).getD comparison_init

/-- The state after parseReportFiles on the concrete run. -/
def wSt1 : comparison := (wSt0.parseReportFiles wSets).getD comparison_init

/-- Witness for C1: the concrete three-genome run satisfies its hypotheses
and hence its conclusion. -/
theorem C1_isLoner_iff_hit_lists_empty_witness :
    (comparison_init.parseDirectories wLogs = some wSt0) ∧
    (wSt0.parseReportFiles wSets = some wSt1) ∧
    ∀ g ∈ wSt1.genomeList, ∀ fl, ∀ e ∈ g.listOf fl,
      e.isLoner = (e.mutualBestHitList.isEmpty && e.singularBestHitList.isEmpty) :=
  ⟨by decide, by decide,
    C1_isLoner_iff_hit_lists_empty wLogs wSets wSt0 wSt1 (by decide) (by decide)⟩

/-! ## C2: at most one entity object per (genome, contig, short name) triple -/

/-- The lookup key addHit2genome deduplicates on. -/
def entIdKey (e : gene_protein) : String × String := (e.contigName, e.name)

/-- The uniqueness invariant: genome names are pairwise distinct, and within
each genome each of the two entity lists has pairwise distinct
(contigName, name) keys. -/
def uniqInv (st : comparison) : Prop :=
  (st.genomeList.map genome.name).Nodup ∧
  ∀ g ∈ st.genomeList, ∀ fl, ((g.listOf fl).map entIdKey).Nodup

theorem entIdKey_mutHit (a b c : Bool) (x y z : String) (e : gene_protein) :
    entIdKey (mutHit a b c x y z e) = entIdKey e := by
  unfold mutHit entIdKey
  cases a <;> cases b <;> cases c <;> rfl

theorem entIdKey_mkNew (t : gene_protein) (fl : flavor)
    (hdr idStr parent ctg ann num : String) :
    entIdKey (mkNew t fl hdr idStr parent ctg ann num) = (ctg, hdr) := rfl

theorem name_modifyList (fl : flavor) (l : List gene_protein) (g : genome) :
    (g.setListOf fl l).name = g.name := name_setListOf g fl l

theorem uniqInv_applyRef {st : comparison} {fl : flavor} {r : objRef}
    {f : gene_protein → gene_protein} (h : uniqInv st)
    (hf : ∀ e, entIdKey (f e) = entIdKey e) : uniqInv (applyRef fl st r f) := by
  cases r with
  | tmpl =>
    refine ⟨?_, ?_⟩
    · rw [show (applyRef fl st .tmpl f).genomeList = st.genomeList from by
        cases fl <;> rfl]
      exact h.1
    · intro g hg
      rw [show (applyRef fl st .tmpl f).genomeList = st.genomeList from by
        cases fl <;> rfl] at hg
      exact h.2 g hg
  | stored gi li =>
    refine ⟨?_, ?_⟩
    · unfold applyRef
      rw [map_modifyNth_of_inv _ _ (fun g => name_setListOf g fl _)]
      exact h.1
    · intro g hg
      unfold applyRef at hg
      rcases mem_modifyNth hg with hg | ⟨b, hb, rfl⟩
      · exact h.2 g hg
      · intro fl'
        by_cases hfl : fl' = fl
        · subst hfl
          rw [listOf_setListOf, map_modifyNth_of_inv _ _ hf]
          exact h.2 b hb fl'
        · rw [listOf_setListOf_other _ _ _ _ hfl]
          exact h.2 b hb fl'

theorem uniqInv_appendNew {st : comparison} {fl : flavor} {gi : Nat} {g : genome}
    {e : gene_protein} (h : uniqInv st) (hget : st.genomeList.get? gi = some g)
    (hfresh : ∀ x ∈ g.listOf fl, entIdKey x ≠ entIdKey e) :
    uniqInv (appendNew fl st gi e) := by
  refine ⟨?_, ?_⟩
  · unfold appendNew
    rw [map_modifyNth_of_inv _ _ (fun g0 => name_setListOf g0 fl _)]
    exact h.1
  · intro g' hg'
    unfold appendNew at hg'
    rcases mem_modifyNth_get? hg' with hg' | ⟨b, hb, rfl⟩
    · exact h.2 g' hg'
    · rw [hget] at hb
      injection hb with hb
      subst hb
      intro fl'
      by_cases hfl : fl' = fl
      · subst hfl
        rw [listOf_setListOf, List.map_append, List.nodup_append]
        refine ⟨h.2 g (List.get?_mem hget) fl', by simp, ?_⟩
        intro x hx
        rcases List.mem_map.mp hx with ⟨y, hy, rfl⟩
        simp only [List.map_cons, List.map_nil, List.mem_singleton]
        exact hfresh y hy
      · rw [listOf_setListOf_other _ _ _ _ hfl]
        exact h.2 g (List.get?_mem hget) fl'

theorem entKey_false_of_ne {ctg hdr : String} {x : gene_protein}
    (h : entKey ctg hdr x = false) : entIdKey x ≠ (ctg, hdr) := by
  unfold entKey at h
  unfold entIdKey
  intro hx
  injection hx with h1 h2
  simp [h1, h2] at h

theorem uniqInv_addHitCore {fl : flavor} {st : comparison} {hitType : String}
    {p : hitParams} {st' : comparison} (h : uniqInv st)
    (hc : addHitCore fl st hitType p = some st') : uniqInv st' := by
  unfold addHitCore at hc
  cases h1 : addHitPhase1 fl st hitType p with
  | none => rw [h1] at hc; exact absurd hc (by simp)
  | some pr =>
    rw [h1] at hc
    obtain ⟨st1, r⟩ := pr
    have hst1 : uniqInv st1 := by
      rcases addHitPhase1_eq_some h1 with ⟨rfl, _⟩ | ⟨gi, g, li, hget, hfe, rfl, _⟩ |
          ⟨gi, g, num, hget, hfe, _, rfl, _⟩
      · exact h
      · exact uniqInv_applyRef h (fun e => entIdKey_mutHit _ _ _ _ _ _ e)
      · refine uniqInv_appendNew h hget ?_
        intro x hx
        rw [show entIdKey (mut1Of hitType p g.name
            (mkNew (st.templateOf fl) fl p.header1 p.id1 p.genomeName1 p.contig1 p.ann1 num))
            = (p.contig1, p.header1) from
          (entIdKey_mutHit _ _ _ _ _ _ _).trans (entIdKey_mkNew _ _ _ _ _ _ _ _)]
        exact entKey_false_of_ne (findIndex_none hfe x hx)
    rcases addHitPhase2_eq_some hc with rfl | rfl | ⟨gi, g, num, hget, hfe, _, rfl⟩
    · exact hst1
    · exact uniqInv_applyRef hst1 (fun e => entIdKey_mutHit _ _ _ _ _ _ e)
    · refine uniqInv_appendNew hst1 hget ?_
      intro x hx
      rw [show entIdKey (mut2Of hitType p
          (mkNew (st1.templateOf fl) fl p.header2 p.id2 p.genomeName2 p.contig2 p.ann2 num))
          = (p.contig2, p.header2) from
        (entIdKey_mutHit _ _ _ _ _ _ _).trans (entIdKey_mkNew _ _ _ _ _ _ _ _)]
      exact entKey_false_of_ne (findIndex_none hfe x hx)

theorem uniqInv_addHit2genome {st : comparison} {d : dataArgs} {st' : comparison}
    (h : uniqInv st) (hc : st.addHit2genome d = some st') : uniqInv st' := by
  unfold comparison.addHit2genome at hc
  split at hc
  · exact uniqInv_addHitCore h hc
  · split at hc
    · exact uniqInv_addHitCore h hc
    · injection hc with h'
      exact h' ▸ h

theorem addParalog_listOf_map (g : genome) (d : dataArgs) (fl : flavor) :
    ((g.addParalog d).listOf fl).map entIdKey = (g.listOf fl).map entIdKey := by
  cases fl with
  | gene =>
    unfold genome.addParalog genome.listOf
    simp only [List.map_map]
    apply List.map_congr_left
    intro x _
    simp only [Function.comp_apply]
    split <;> split <;> rfl
  | protein => rfl

theorem addParalog_name (g : genome) (d : dataArgs) : (g.addParalog d).name = g.name := rfl

theorem uniqInv_addParalog2genome {st : comparison} {d : dataArgs} (h : uniqInv st) :
    uniqInv (st.addParalog2genome d) := by
  unfold comparison.addParalog2genome
  split
  · refine ⟨?_, ?_⟩
    · rw [map_modifyNth_of_inv _ _ (fun g => addParalog_name g d)]
      exact h.1
    · intro g hg
      rcases mem_modifyNth hg with hg | ⟨b, hb, rfl⟩
      · exact h.2 g hg
      · intro fl
        rw [addParalog_listOf_map]
        exact h.2 b hb fl
  · exact h

theorem uniq_stepRel : stepRel (fun st st' => uniqInv st → uniqInv st') := by
  refine ⟨fun s h => h, fun s t u h1 h2 h => h2 (h1 h), ?_, ?_⟩
  · intro st d st' hc h
    exact uniqInv_addHit2genome h hc
  · intro st d h
    exact uniqInv_addParalog2genome h

theorem uniqInv_parseDirectories_init {dirLogs : List (List String)} {st0 : comparison}
    (h : comparison_init.parseDirectories dirLogs = some st0) : uniqInv st0 := by
  rcases parseDirectories_eq_some h with ⟨s, gs, hs, hgs, rfl⟩
  constructor
  · show ((comparison_init.genomeList ++ gs).map genome.name).Nodup
    rw [show comparison_init.genomeList = [] from rfl, List.nil_append,
      (buildGenomes_spec _ _ _ _ _ hgs).1]
    exact foldDiscoverDirs_nodup dirLogs hs (by simp)
  · intro g hg fl
    rw [show comparison_init.genomeList = [] from rfl, List.nil_append] at hg
    rcases (buildGenomes_spec _ _ _ _ _ hgs).2 g hg with ⟨_, hlist⟩
    rw [hlist fl]
    cases fl <;> simp [comparison_init, genome.listOf]

/-- C2: after parseDirectories and any sequence of result sets processed by
parseReportFiles, no two distinct entity objects (addressed by genome index
and position in the genome's gene or protein list) share the same
(genome name, contig name, short name) triple: the lookup by contigName and
name equality resolves a repeated reference to the already-registered
object instead of creating a duplicate. -/
theorem C2_at_most_one_entity_per_triple (dirLogs : List (List String))
    (sets : List resultSet) (st0 st' : comparison)
    (h0 : comparison_init.parseDirectories dirLogs = some st0)
    (h1 : st0.parseReportFiles sets = some st') :
    ∀ gi1 gi2 g1 g2 fl li1 li2 e1 e2,
      st'.genomeList.get? gi1 = some g1 → st'.genomeList.get? gi2 = some g2 →
      (g1.listOf fl).get? li1 = some e1 → (g2.listOf fl).get? li2 = some e2 →
      g1.name = g2.name → e1.contigName = e2.contigName → e1.name = e2.name →
      gi1 = gi2 ∧ li1 = li2 := by
  have hu : uniqInv st' :=
    rel_parseReportFiles uniq_stepRel sets h1 (uniqInv_parseDirectories_init h0)
  intro gi1 gi2 g1 g2 fl li1 li2 e1 e2 hg1 hg2 he1 he2 hnm hctg hn
  have hgi : gi1 = gi2 := by
    refine nodup_get?_inj hu.1 (a := g1.name) ?_ ?_
    · rw [List.get?_map, hg1]
      rfl
    · rw [List.get?_map, hg2]
      rw [hnm]
      rfl
  subst hgi
  have hgg : g1 = g2 := by
    rw [hg1] at hg2
    injection hg2
  subst hgg
  refine ⟨rfl, ?_⟩
  refine nodup_get?_inj (hu.2 g1 (List.get?_mem hg1) fl) (a := entIdKey e1) ?_ ?_
  · rw [List.get?_map, he1]
    rfl
  · rw [List.get?_map, he2]
    unfold entIdKey
    rw [hctg, hn]
    rfl

/-- Witness for C2 at the concrete three-genome run. -/
theorem C2_at_most_one_entity_per_triple_witness :
    (comparison_init.parseDirectories wLogs = some wSt0) ∧
    (wSt0.parseReportFiles wSets = some wSt1) ∧
    ∀ gi1 gi2 g1 g2 fl li1 li2 e1 e2,
      wSt1.genomeList.get? gi1 = some g1 → wSt1.genomeList.get? gi2 = some g2 →
      (g1.listOf fl).get? li1 = some e1 → (g2.listOf fl).get? li2 = some e2 →
      g1.name = g2.name → e1.contigName = e2.contigName → e1.name = e2.name →
      gi1 = gi2 ∧ li1 = li2 :=
  ⟨by decide, by decide,
    C2_at_most_one_entity_per_triple wLogs wSets wSt0 wSt1 (by decide) (by decide)⟩

/-! ## C10: the isLoner flag is monotone (never reset to True) -/

/-- Between two states of one run: the genome list keeps its length, each
genome's entity lists only grow, and an entity that already had isLoner
False still has it False at the same position. -/
def lonerMono (st st' : comparison) : Prop :=
  st'.genomeList.length = st.genomeList.length ∧
  ∀ gi g g', st.genomeList.get? gi = some g → st'.genomeList.get? gi = some g' →
    ∀ fl, (g.listOf fl).length ≤ (g'.listOf fl).length ∧
      ∀ li e e', (g.listOf fl).get? li = some e → (g'.listOf fl).get? li = some e' →
        (e.isLoner = false → e'.isLoner = false)

theorem lonerMono_refl (st : comparison) : lonerMono st st := by
  refine ⟨rfl, ?_⟩
  intro gi g g' hg hg'
  rw [hg] at hg'
  injection hg' with hg'
  subst hg'
  intro fl
  refine ⟨Nat.le_refl _, ?_⟩
  intro li e e' he he' hl
  rw [he] at he'
  injection he' with he'
  exact he' ▸ hl

theorem lonerMono_trans {s t u : comparison} (h1 : lonerMono s t) (h2 : lonerMono t u) :
    lonerMono s u := by
  refine ⟨h2.1.trans h1.1, ?_⟩
  intro gi g g' hg hg' fl
  have hlt : gi < t.genomeList.length := by
    rw [h1.1]
    exact get?_lt_length hg
  rcases exists_get?_of_lt hlt with ⟨gm, hgm⟩
  rcases h1.2 gi g gm hg hgm fl with ⟨hlen1, hmono1⟩
  rcases h2.2 gi gm g' hgm hg' fl with ⟨hlen2, hmono2⟩
  refine ⟨hlen1.trans hlen2, ?_⟩
  intro li e e' he he' hl
  have hlt2 : li < (gm.listOf fl).length := Nat.lt_of_lt_of_le (get?_lt_length he) hlen1
  rcases exists_get?_of_lt hlt2 with ⟨em, hem⟩
  exact hmono2 li em e' hem he' (hmono1 li e em he hem hl)

theorem mutHit_isLoner_mono (a b c : Bool) (x y z : String) (e : gene_protein)
    (h : e.isLoner = false) : (mutHit a b c x y z e).isLoner = false := by
  unfold mutHit
  cases a <;> cases b <;> cases c <;> simp_all

theorem lonerMono_applyRef (fl : flavor) (st : comparison) (r : objRef)
    (f : gene_protein → gene_protein)
    (hf : ∀ e, e.isLoner = false → (f e).isLoner = false) :
    lonerMono st (applyRef fl st r f) := by
  cases r with
  | tmpl =>
    have hgl : (applyRef fl st .tmpl f).genomeList = st.genomeList := by
      cases fl <;> rfl
    refine ⟨by rw [hgl], ?_⟩
    intro gi g g' hg hg' fl'
    rw [hgl, hg] at hg'
    injection hg' with hg'
    subst hg'
    refine ⟨Nat.le_refl _, ?_⟩
    intro li e e' he he' hl
    rw [he] at he'
    injection he' with he'
    exact he' ▸ hl
  | stored gi0 li0 =>
    refine ⟨modifyNth_length _ _ _, ?_⟩
    intro gi g g' hg hg' fl'
    unfold applyRef at hg'
    rw [get?_modifyNth] at hg'
    by_cases hgi : gi = gi0
    · rw [if_pos hgi, hg] at hg'
      injection hg' with hg'
      subst hg'
      by_cases hfl : fl' = fl
      · subst hfl
        rw [listOf_setListOf]
        refine ⟨by rw [modifyNth_length], ?_⟩
        intro li e e' he he' hl
        rw [get?_modifyNth] at he'
        by_cases hli : li = li0
        · rw [if_pos hli, he] at he'
          injection he' with he'
          exact he' ▸ hf e hl
        · rw [if_neg hli, he] at he'
          injection he' with he'
          exact he' ▸ hl
      · rw [listOf_setListOf_other _ _ _ _ hfl]
        refine ⟨Nat.le_refl _, ?_⟩
        intro li e e' he he' hl
        rw [he] at he'
        injection he' with he'
        exact he' ▸ hl
    · rw [if_neg hgi, hg] at hg'
      injection hg' with hg'
      subst hg'
      refine ⟨Nat.le_refl _, ?_⟩
      intro li e e' he he' hl
      rw [he] at he'
      injection he' with he'
      exact he' ▸ hl

theorem lonerMono_appendNew (fl : flavor) (st : comparison) (gi0 : Nat) (x : gene_protein) :
    lonerMono st (appendNew fl st gi0 x) := by
  refine ⟨modifyNth_length _ _ _, ?_⟩
  intro gi g g' hg hg' fl'
  unfold appendNew at hg'
  rw [get?_modifyNth] at hg'
  by_cases hgi : gi = gi0
  · rw [if_pos hgi, hg] at hg'
    injection hg' with hg'
    subst hg'
    by_cases hfl : fl' = fl
    · subst hfl
      rw [listOf_setListOf]
      refine ⟨by simp, ?_⟩
      intro li e e' he he' hl
      rw [List.get?_append (get?_lt_length he), he] at he'
      injection he' with he'
      exact he' ▸ hl
    · rw [listOf_setListOf_other _ _ _ _ hfl]
      refine ⟨Nat.le_refl _, ?_⟩
      intro li e e' he he' hl
      rw [he] at he'
      injection he' with he'
      exact he' ▸ hl
  · rw [if_neg hgi, hg] at hg'
    injection hg' with hg'
    subst hg'
    refine ⟨Nat.le_refl _, ?_⟩
    intro li e e' he he' hl
    rw [he] at he'
    injection he' with he'
    exact he' ▸ hl

theorem lonerMono_addHitCore {fl : flavor} {st : comparison} {hitType : String}
    {p : hitParams} {st' : comparison} (hc : addHitCore fl st hitType p = some st') :
    lonerMono st st' := by
  unfold addHitCore at hc
  cases h1 : addHitPhase1 fl st hitType p with
  | none => rw [h1] at hc; exact absurd hc (by simp)
  | some pr =>
    rw [h1] at hc
    obtain ⟨st1, r⟩ := pr
    have hm1 : lonerMono st st1 := by
      rcases addHitPhase1_eq_some h1 with ⟨rfl, _⟩ | ⟨gi, g, li, _, _, rfl, _⟩ |
          ⟨gi, g, num, _, _, _, rfl, _⟩
      · exact lonerMono_refl _
      · exact lonerMono_applyRef _ _ _ _ (fun e => mutHit_isLoner_mono _ _ _ _ _ _ e)
      · exact lonerMono_appendNew _ _ _ _
    have hm2 : lonerMono st1 st' := by
      rcases addHitPhase2_eq_some hc with rfl | rfl | ⟨gi, g, num, _, _, _, rfl⟩
      · exact lonerMono_refl _
      · exact lonerMono_applyRef _ _ _ _ (fun e => mutHit_isLoner_mono _ _ _ _ _ _ e)
      · exact lonerMono_appendNew _ _ _ _
    exact lonerMono_trans hm1 hm2

theorem lonerMono_addHit2genome {st : comparison} {d : dataArgs} {st' : comparison}
    (hc : st.addHit2genome d = some st') : lonerMono st st' := by
  unfold comparison.addHit2genome at hc
  split at hc
  · exact lonerMono_addHitCore hc
  · split at hc
    · exact lonerMono_addHitCore hc
    · injection hc with h'
      exact h' ▸ lonerMono_refl st

theorem addParalog_isLoner (g : genome) (d : dataArgs) (fl : flavor) :
    ((g.addParalog d).listOf fl).length = (g.listOf fl).length ∧
    ∀ li e e', (g.listOf fl).get? li = some e → ((g.addParalog d).listOf fl).get? li = some e' →
      e'.isLoner = e.isLoner := by
  cases fl with
  | gene =>
    unfold genome.addParalog genome.listOf
    refine ⟨by simp, ?_⟩
    intro li e e' he he'
    rw [List.get?_map, he] at he'
    injection he' with he'
    subst he'
    simp only [Option.map_some]
    split <;> split <;> rfl
  | protein =>
    refine ⟨rfl, ?_⟩
    intro li e e' he he'
    rw [show (g.addParalog d).listOf .protein = g.listOf .protein from rfl, he] at he'
    injection he' with he'
    exact he' ▸ rfl

theorem lonerMono_addParalog2genome (st : comparison) (d : dataArgs) :
    lonerMono st (st.addParalog2genome d) := by
  unfold comparison.addParalog2genome
  split
  · refine ⟨modifyNth_length _ _ _, ?_⟩
    intro gi g g' hg hg' fl
    rw [get?_modifyNth] at hg'
    rename_i gi0 _
    by_cases hgi : gi = gi0
    · rw [if_pos hgi, hg] at hg'
      injection hg' with hg'
      subst hg'
      rcases addParalog_isLoner g d fl with ⟨hlen, hiso⟩
      refine ⟨Nat.le_of_eq hlen.symm, ?_⟩
      intro li e e' he he' hl
      rw [hiso li e e' he he']
      exact hl
    · rw [if_neg hgi, hg] at hg'
      injection hg' with hg'
      subst hg'
      refine ⟨Nat.le_refl _, ?_⟩
      intro li e e' he he' hl
      rw [he] at he'
      injection he' with he'
      exact he' ▸ hl
  · exact lonerMono_refl st

/-- C10: every gene_protein object is initialized with isLoner True, and
the isLoner flag is monotone across any sequence of addHit2genome and
addParalog2genome operations: once False at a position, it stays False. -/
theorem C10_isLoner_monotone :
    (({} : gene_protein).isLoner = true) ∧
    ∀ (st : comparison) (ops : List gOp) (st' : comparison),
      st.runOps ops = some st' → lonerMono st st' := by
  refine ⟨rfl, ?_⟩
  intro st ops
  induction ops generalizing st with
  | nil =>
    intro st' h
    unfold comparison.runOps at h
    injection h with h'
    exact h' ▸ lonerMono_refl st
  | cons op ops ih =>
    intro st' h
    unfold comparison.runOps at h
    cases hop : st.applyOp op with
    | none => rw [hop] at h; exact absurd h (by simp)
    | some st1 =>
      rw [hop] at h
      refine lonerMono_trans ?_ (ih st1 st' h)
      cases op with
      | hit d =>
        exact lonerMono_addHit2genome hop
      | paralog d =>
        unfold comparison.applyOp at hop
        injection hop with hop
        exact hop ▸ lonerMono_addParalog2genome st d

/-- The mutual gene hit of the C10 witness run. -/
def wHitArgs : dataArgs :=
  { genome1 := "A", genome2 := "B"
    contig1 := "Ac1", contig2 := "Bc1"
    gene1 := "cds1/+/1/99/", gene2 := "cds1/+/1/99/"
    hitType := "mutual1", hitFlavor := "gene" }

/-- The paralog record of the C10 witness run. -/
def wParArgs : dataArgs :=
  { genome1 := "A"
    gene1 := "cds1/+/1/99/", gene2 := "cds1/+/1/99/"
    hitType := "gene_paralog" }

/-- The operation sequence of the C10 witness run. -/
def wOps : List gOp := [gOp.hit wHitArgs, gOp.paralog wParArgs]

/-- The state after the C10 witness run. -/
def wStOps : comparison := (wSt0.runOps wOps).getD comparison_init

/-- Witness for C10: a concrete two-operation run (a mutual gene hit, then
a paralog record) from the concrete parseDirectories state. -/
theorem C10_isLoner_monotone_witness :
    (wSt0.runOps wOps = some wStOps) ∧ lonerMono wSt0 wStOps :=
  ⟨by decide, C10_isLoner_monotone.2 wSt0 wOps wStOps (by decide)⟩

/-! ## C4: the reference genome designation -/

/-- C4: in a run whose parseDirectories walk registered at least one
genome, exactly one registered genome carries the reference flag; the
reference genome name is the first genome name encountered across the
result-set logs in discovery order; a genome is flagged exactly when its
name is that name; and processing further result sets after the same
prefix never changes the reference designation. -/
theorem C4_reference_designation (dirLogs more : List (List String)) (st st2 : comparison)
    (h : comparison_init.parseDirectories dirLogs = some st)
    (hne : st.genomeList ≠ [])
    (h2 : comparison_init.parseDirectories (dirLogs ++ more) = some st2) :
    (∃ g, specFirstGenomeName dirLogs = some g ∧ st.referenceGenome = g) ∧
    (st.genomeList.filter (fun g => g.isReference)).length = 1 ∧
    (∀ g ∈ st.genomeList, g.isReference = true → g.name = st.referenceGenome) ∧
    st2.referenceGenome = st.referenceGenome := by
  rcases parseDirectories_eq_some h with ⟨s, gs, hs, hgs, rfl⟩
  simp only [show comparison_init.genomeList = [] from rfl, List.nil_append] at hne ⊢
  have hgsne : gs ≠ [] := by simpa using hne
  have hglne : s.gList ≠ [] := by
    intro hx
    apply hgsne
    have := (buildGenomes_spec _ _ _ _ _ hgs).1
    rw [hx] at this
    exact List.map_eq_nil_iff.mp this
  rcases foldDiscoverDirs_first dirLogs hs rfl with ⟨_, hnil⟩ | ⟨g, hspec, ⟨t', ht'⟩⟩
  · exact absurd hnil hglne
  have href : s.ref = g := foldDiscoverDirs_ref_head dirLogs hs rfl g t' ht'
  have hnodup : s.gList.Nodup := foldDiscoverDirs_nodup dirLogs hs (by simp)
  have hmem : s.ref ∈ s.gList := by
    rw [href, ht']
    exact List.mem_cons_self _ _
  refine ⟨⟨g, hspec, href⟩, ?_, ?_, ?_⟩
  · rw [buildGenomes_refCount _ _ _ _ _ hgs]
    exact filter_beq_count_one hnodup hmem
  · intro g0 hg0 hrefl
    rcases (buildGenomes_spec _ _ _ _ _ hgs).2 g0 hg0 with ⟨hflag, _⟩
    rw [hrefl] at hflag
    exact beq_iff_eq.mp hflag.symm
  · rcases parseDirectories_eq_some h2 with ⟨s2, gs2, hs2, _, rfl⟩
    rw [List.foldlM_append (m := Option) discoverDir _ dirLogs more] at hs2
    rw [hs] at hs2
    simp only [Option.bind_eq_bind, Option.some_bind] at hs2
    have hkeep := foldDiscoverDirs_keep more hs2 g t' ht' href
    show s2.ref = s.ref
    rw [hkeep.2, href]

/-- Witness for C4 at the concrete three-genome run extended by one more
result set. -/
theorem C4_reference_designation_witness :
    (comparison_init.parseDirectories wLogs = some wSt0) ∧
    (wSt0.genomeList ≠ []) ∧
    (comparison_init.parseDirectories (wLogs ++ [logAB]) = some
      ((comparison_init.parseDirectories (wLogs ++ [logAB])).getD comparison_init)) ∧
    ((∃ g, specFirstGenomeName wLogs = some g ∧ wSt0.referenceGenome = g) ∧
     (wSt0.genomeList.filter (fun g => g.isReference)).length = 1 ∧
     (∀ g ∈ wSt0.genomeList, g.isReference = true → g.name = wSt0.referenceGenome) ∧
     ((comparison_init.parseDirectories (wLogs ++ [logAB])).getD
        comparison_init).referenceGenome = wSt0.referenceGenome) :=
  ⟨by decide, by decide, by decide,
    C4_reference_designation wLogs [logAB] wSt0 _ (by decide) (by decide) (by decide)⟩

/-! ## C3: the core-genome view visits only geneList, never proteinList -/

/-- The Results_A_B result set with one mutual protein hit (after the
protein-section marker). -/
def c3sets : List resultSet :=
  [{ log := some logAB, report := some ["#PROTEIN HITS", mutRow "Bc1"], paralog := some [] }]

/-- The state after parseDirectories on the single log of the C3 run. -/
def c3St0 : comparison := (comparison_init.parseDirectories [logAB]).getD comparison_init

/-- The state after processing the mutual protein hit. -/
def c3St1 : comparison := (c3St0.parseReportFiles c3sets).getD comparison_init

/-- The reference-genome protein entity of the C3 run. -/
def c3prot : gene_protein := ((c3St1.genomeList.getD 0 {}).proteinList).getD 0 {}

/-- Counterexample to C3 as stated: in a real two-genome run, the
reference genome's protein entity has a mutual-best-hit list of exactly
genomeCount - 1 entries, yet it does not appear in the core-genome view,
because writeCoreGenome iterates only geneList. -/
theorem C3_core_genome_counterexample :
    (comparison_init.parseDirectories [logAB] = some c3St0) ∧
    (c3St0.parseReportFiles c3sets = some c3St1) ∧
    ((c3St1.genomeList.getD 0 {}).isReference = true) ∧
    (c3prot ∈ (c3St1.genomeList.getD 0 {}).proteinList) ∧
    (c3prot.mutualBestHitList.length = c3St1.genomeList.length - 1) ∧
    ¬ (c3prot ∈ c3St1.writeCoreGenome) :=
  ⟨by decide, by decide, by decide, by decide, by decide, by decide⟩

/-- C3 amended: an entity appears in the core-genome view exactly when it
is a GENE of a reference genome whose mutualBestHitList has exactly
genomeCount - 1 entries; reference-genome proteins never appear. -/
theorem C3_core_genome_membership_amended (st : comparison) (e : gene_protein) :
    e ∈ st.writeCoreGenome ↔
      ∃ g, g ∈ st.genomeList ∧ g.isReference = true ∧ e ∈ g.geneList ∧
        e.mutualBestHitList.length = st.genomeList.length - 1 := by
  unfold comparison.writeCoreGenome
  simp only [List.mem_flatMap, List.mem_filter, beq_iff_eq]
  constructor
  · rintro ⟨g, ⟨hg, hr⟩, he, hl⟩
    exact ⟨g, hg, hr, he, hl⟩
  · rintro ⟨g, hg, hr, he, hl⟩
    exact ⟨g, ⟨hg, hr⟩, he, hl⟩

/-! ## C6: a missing log/report/paralog file aborts the whole run -/

theorem processResultSet_none_of_missing {st : comparison} {s : resultSet}
    (h : s.log = none ∨ s.report = none ∨ s.paralog = none) :
    processResultSet st s = none := by
  unfold processResultSet
  rcases h with h | h | h
  · rw [h]
    rfl
  · cases hlog : s.log with
    | none => rfl
    | some lg =>
      simp only [Option.some_bind]
      cases hg : comparison.findGenomes lg with
      | none => rfl
      | some gg =>
        simp only [Option.some_bind]
        rw [h]
        rfl
  · cases hlog : s.log with
    | none => rfl
    | some lg =>
      simp only [Option.some_bind]
      cases hg : comparison.findGenomes lg with
      | none => rfl
      | some gg =>
        simp only [Option.some_bind]
        cases hrep : s.report with
        | none => rfl
        | some rep =>
          simp only [Option.some_bind]
          cases hb : st.loadBestHits gg.1 gg.2 rep with
          | none => rfl
          | some st1 =>
            simp only [Option.some_bind]
            rw [h]
            rfl

theorem parseReportFiles_none_of_missing_aux (sets : List resultSet) :
    ∀ st : comparison, (∃ s ∈ sets, s.log = none ∨ s.report = none ∨ s.paralog = none) →
      st.parseReportFiles sets = none := by
  induction sets with
  | nil =>
    intro st h
    rcases h with ⟨s, hs, _⟩
    exact absurd hs (by simp)
  | cons s0 rest ih =>
    intro st h
    unfold comparison.parseReportFiles
    rcases h with ⟨s, hs, hmiss⟩
    rcases List.mem_cons.mp hs with rfl | hs
    · rw [processResultSet_none_of_missing hmiss]
      rfl
    · cases hp : processResultSet st s0 with
      | none => rfl
      | some st1 =>
        simp only [Option.some_bind]
        exact ih st1 ⟨s, hs, hmiss⟩

/-- C6 amended: a result set whose log, report or paralog file is absent is
not skipped - the open() call raises an uncaught FileNotFoundError, so
parseReportFiles aborts the whole run (returns none) no matter which
result sets precede or follow it. -/
theorem C6_missing_file_aborts_run (sets : List resultSet) (st : comparison)
    (h : ∃ s ∈ sets, s.log = none ∨ s.report = none ∨ s.paralog = none) :
    st.parseReportFiles sets = none :=
  parseReportFiles_none_of_missing_aux sets st h

/-- The result sets of the C6 counterexample: the first one lacks its
report file, a valid one follows. -/
def c6sets : List resultSet := [{ log := some logAB, report := none, paralog := some [] }, setAB]

/-- Counterexample to C6 as stated: a result set with an absent report
file does not lead to a skip-and-continue; the run aborts (none) and the
following valid result set is never processed. -/
theorem C6_missing_file_counterexample : wSt0.parseReportFiles c6sets = none := by decide

/-- Witness for C6 at the concrete run with a missing report file. -/
theorem C6_missing_file_aborts_run_witness :
    (∃ s ∈ c6sets, s.log = none ∨ s.report = none ∨ s.paralog = none) ∧
    wSt0.parseReportFiles c6sets = none :=
  ⟨by decide, C6_missing_file_aborts_run c6sets wSt0 (by decide)⟩

/-! ## C7: mutual-best hits -/

/-- The log file of the Results_C_B directory. -/
def logCB : List String :=
  ["genome file #1: /data/C.fasta", "genome file #2: /data/B.fasta"]

/-- A mutual gene row of Results_C_B: C's cds5 (contig Cc1) against B's
cds1 (contig Bc1), whose genome-2 entity already exists. -/
def mutRowCB : String :=
  "1\tgenome1_mutual\tx\tx\tx\tx\tx\tx\tx\tcds5/+/1/99/\tCc1\t\tx\tx\tx\tx\tcds1/+/1/99/\tBc1\t"

/-- The result sets of the C7 counterexample run. -/
def c7sets : List resultSet :=
  [setAB, { log := some logCB, report := some [mutRowCB], paralog := some [] }]

/-- The state after parseDirectories on the C7 counterexample run. -/
def c7St0 : comparison := (comparison_init.parseDirectories [logAB, logCB]).getD comparison_init

/-- The state after parseReportFiles on the C7 counterexample run. -/
def c7St1 : comparison := (c7St0.parseReportFiles c7sets).getD comparison_init

/-- Counterexample to C7 as stated: in the second result set the mutual
hit C:Cc1:cds5 - B:Bc1:cds1 references a genome-2 entity that already
exists; B's entity does NOT receive C's identifier (its list still only
holds A's), and the append is misdirected to the genome-1 entity, which
ends up with its own identifier in its mutualBestHitList. -/
theorem C7_mutual_append_counterexample :
    (comparison_init.parseDirectories [logAB, logCB] = some c7St0) ∧
    (c7St0.parseReportFiles c7sets = some c7St1) ∧
    c7St1.genomeList.map (fun g => (g.name, g.geneList.map
        (fun e => e.mutualBestHitList))) =
      [("A", [["B:Bc1:cds1/+/1/99/"]]),
       ("B", [["A:Ac1:cds1/+/1/99/"]]),
       ("C", [["B:Bc1:cds1/+/1/99/", "C:Cc1:cds5/+/1/99/"]])] :=
  ⟨by decide, by decide, by decide⟩

/-- C7 amended: when each side of a gene-mode mutual row is new, both
entities receive the partner's identifier, and in the two-result-set
scenario (Results_A_B and Results_A_C, one mutual hit each between cds1
genes) genome A's single gene ends with a mutualBestHitList of length two
(one identifier per partner), isLoner False, and membership in the
core-genome view. -/
theorem C7_mutual_scenario_amended :
    (comparison_init.parseDirectories wLogs = some wSt0) ∧
    (wSt0.parseReportFiles wSets = some wSt1) ∧
    wSt1.genomeList.map (fun g => (g.name, g.isReference, g.geneList.map
        (fun e => (e.identifier, e.mutualBestHitList, e.isLoner)))) =
      [("A", true, [("A:Ac1:cds1/+/1/99/",
          ["B:Bc1:cds1/+/1/99/", "C:Cc1:cds1/+/1/99/"], false)]),
       ("B", false, [("B:Bc1:cds1/+/1/99/", ["A:Ac1:cds1/+/1/99/"], false)]),
       ("C", false, [("C:Cc1:cds1/+/1/99/", ["A:Ac1:cds1/+/1/99/"], false)])] ∧
    wSt1.writeCoreGenome.map (fun e => e.identifier) = ["A:Ac1:cds1/+/1/99/"] :=
  ⟨by decide, by decide, by decide, by decide⟩

/-! ## C9: the loner row records the gene's own genome name -/

/-- A genome1_loner data row: gene cds7 of contig Ac1, with empty genome-2
columns. -/
def lonerRow : String :=
  "1\tgenome1_loner\tx\tx\tx\tx\tx\tx\tx\tcds7/+/1/99/\tAc1\t\tx\tx\tx\tx\t\t\t"

/-- The result sets of the C9 run. -/
def c9sets : List resultSet :=
  [{ log := some logAB, report := some [lonerRow], paralog := some [] }]

/-- The state after parseDirectories on the C9 run. -/
def c9St0 : comparison := (comparison_init.parseDirectories [logAB]).getD comparison_init

/-- The state after processing the loner row. -/
def c9St1 : comparison := (c9St0.parseReportFiles c9sets).getD comparison_init

/-- C9 evaluation: a genome1_loner row for a gene of genome A in the A-B
comparison appends "A" - the gene's own parent genome - to the gene's
lonerList, where the claim (and the source's own comment on the append
line) requires the name of the other genome, "B". -/
theorem C9_loner_records_own_genome :
    (comparison_init.parseDirectories [logAB] = some c9St0) ∧
    (c9St0.parseReportFiles c9sets = some c9St1) ∧
    c9St1.genomeList.map (fun g => (g.name, g.geneList.map
        (fun e => (e.identifier, e.lonerList, e.isLoner)))) =
      [("A", [("A:Ac1:cds7/+/1/99/", ["A"], true)]), ("B", [])] :=
  ⟨by decide, by decide, by decide⟩

/-! ## C5: malformed hit-type tags do not lead to a clean skip -/

theorem split2Char_eq_none {s : String} {c : Char}
    (h : (splitChar c s).length ≠ 2) : split2Char s c = none := by
  unfold split2Char
  cases hl : splitChar c s with
  | nil => rfl
  | cons a t =>
    cases t with
    | nil => rfl
    | cons b t2 =>
      cases t2 with
      | nil => exact absurd (by rw [hl]; rfl) h
      | cons e t3 => rfl

/-- A data row whose hit-type tag has an unrecognized genome token. -/
def c5badRow : String :=
  "1\tgenomeX_mutual\tx\tx\tx\tx\tx\tx\tx\tcds9/+/1/99/\tAc1\t\tx\tx\tx\tx\tcds9/+/1/99/\tBc1\t"

/-- The state after loadBestHits on the single malformed-tag row. -/
def c5St1 : comparison := (wSt0.loadBestHits "A" "B" [c5badRow]).getD comparison_init

/-- Counterexample to C5 as stated: a data row whose hit-type tag does not
yield a recognized genome token is NOT skipped - after the warning, the row
is still processed with an empty hit type and a gene_protein entity is
created from it in each referenced genome. -/
theorem C5_malformed_tag_counterexample :
    (wSt0.loadBestHits "A" "B" [c5badRow] = some c5St1) ∧
    (wSt0.genomeList.map (fun g => g.geneList.length) = [0, 0, 0]) ∧
    (c5St1.genomeList.map (fun g => g.geneList.length) = [1, 1, 0]) :=
  ⟨by decide, by decide, by decide⟩

/-- A data row whose hit-type tag cannot be unpacked into two tokens. -/
def c5crashRow : String := "1\tgarbage\tx"

/-- C5 amended: a hit-type tag that does not split into exactly two
underscore-separated tokens raises an uncaught ValueError, aborting the
row loop (none); a tag whose genome token is unrecognized only warns -
the hit type stays empty and the row is still handed to addHit2genome,
which may create entities (with no hit recorded on them) while parsing
continues with the remaining rows, as the concrete two-row run shows. -/
theorem C5_malformed_tag_amended (st : comparison) (g1 g2 : String) (b : Bool)
    (line tag : String) (hline : startsWithStr line "#" = false)
    (htag : (splitChar '\t' line).get? GENOME_TYPE = some tag)
    (hsplit : (splitChar '_' tag).length ≠ 2) :
    processReportLine g1 g2 (st, b) line = none ∧
    (∀ gn hk : String, gn ≠ "genome1" → gn ≠ "genome2" → hitTypeOf gn hk = "") ∧
    (wSt0.loadBestHits "A" "B" [c5badRow, mutRow "Bc1"]).map
        (fun s => s.genomeList.map (fun g => g.geneList.map
          (fun e => (e.name, e.mutualBestHitList, e.singularBestHitList, e.isLoner))))
      = some [[("cds9/+/1/99/", [], [], true),
               ("cds1/+/1/99/", ["B:Bc1:cds1/+/1/99/"], [], false)],
              [("cds9/+/1/99/", [], [], true),
               ("cds1/+/1/99/", ["A:Ac1:cds1/+/1/99/"], [], false)],
              []] := by
  have hconc : (wSt0.loadBestHits "A" "B" [c5badRow, mutRow "Bc1"]).map
      (fun s => s.genomeList.map (fun g => g.geneList.map
        (fun e => (e.name, e.mutualBestHitList, e.singularBestHitList, e.isLoner))))
      = some [[("cds9/+/1/99/", [], [], true),
               ("cds1/+/1/99/", ["B:Bc1:cds1/+/1/99/"], [], false)],
              [("cds9/+/1/99/", [], [], true),
               ("cds1/+/1/99/", ["A:Ac1:cds1/+/1/99/"], [], false)],
              []] := by decide
  refine ⟨?_, ?_, hconc⟩
  · unfold processReportLine
    rw [if_neg (by simp [hline])]
    simp only [htag, split2Char_eq_none hsplit, Option.some_bind, Option.none_bind]
  · intro gn hk h1 h2
    unfold hitTypeOf
    rw [if_neg (by simp only [beq_iff_eq]; exact h1),
      if_neg (by simp only [beq_iff_eq]; exact h2)]

/-- Witness for C5 at a concrete unsplittable-tag row. -/
theorem C5_malformed_tag_amended_witness :
    (startsWithStr c5crashRow "#" = false) ∧
    ((splitChar '\t' c5crashRow).get? GENOME_TYPE = some "garbage") ∧
    ((splitChar '_' "garbage").length ≠ 2) ∧
    processReportLine "A" "B" (wSt0, false) c5crashRow = none :=
  ⟨by decide, by decide, by decide,
    (C5_malformed_tag_amended wSt0 "A" "B" false c5crashRow "garbage"
      (by decide) (by decide) (by decide)).1⟩

/-! ## C8: paralog insertion -/

theorem filter_map_pred_inv {α : Type} (f : α → α) (p : α → Bool)
    (hp : ∀ a, p (f a) = p a) : ∀ l : List α, (l.map f).filter p = (l.filter p).map f := by
  intro l
  induction l with
  | nil => rfl
  | cons a t ih =>
    simp only [List.map_cons, List.filter_cons, hp a]
    by_cases h : p a = true
    · simp [h, ih]
    · simp [h, ih]

theorem paralogScan_filter_nil {gl : List gene_protein} {h2 : String}
    (h : gl.filter (fun e => e.cgpHeader == h2) = []) (plist : List String) :
    paralogScan gl plist h2 = plist := by
  induction gl with
  | nil => rfl
  | cons a t ih =>
    rw [List.filter_cons] at h
    unfold paralogScan
    by_cases ha : (a.cgpHeader == h2) = true
    · rw [if_pos ha] at h
      exact absurd h (by simp)
    · rw [if_neg ha] at h
      rw [if_neg ha]
      exact ih h

theorem paralogScan_filter_singleton {gl : List gene_protein} {h2 : String}
    {s : gene_protein} (h : gl.filter (fun e => e.cgpHeader == h2) = [s])
    (plist : List String) :
    paralogScan gl plist h2 =
      if s.identifier ∈ plist then plist else plist ++ [s.identifier] := by
  induction gl with
  | nil => simp at h
  | cons a t ih =>
    rw [List.filter_cons] at h
    unfold paralogScan
    by_cases ha : (a.cgpHeader == h2) = true
    · rw [if_pos ha] at h
      injection h with h1 h2'
      subst h1
      rw [if_pos ha]
      by_cases hm : a.identifier ∈ plist
      · rw [if_pos (by simpa using hm), if_pos hm]
        exact paralogScan_filter_nil h2' plist
      · rw [if_neg (by simpa using hm), if_neg hm]
    · rw [if_neg ha] at h
      rw [if_neg ha]
      exact ih h

/-- The per-element update of genome.addParalog's outer loop. -/
def paralogUpd (gl : List gene_protein) (gene1 gene2 : String) (g1 : gene_protein) :
    gene_protein :=
  if g1.cgpHeader == gene1 then
    { g1 with paralogList := paralogScan gl g1.paralogList gene2 }
  else g1

theorem addParalog_eq_map (g : genome) (d : dataArgs) :
    g.addParalog d = { g with geneList := (g.geneList.map
      (paralogUpd g.geneList (if containsSub d.hitType "gene" then d.gene1 else "")
        (if containsSub d.hitType "gene" then d.gene2 else ""))) } := rfl

theorem paralogUpd_cgpHeader (gl : List gene_protein) (gene1 gene2 : String)
    (x : gene_protein) : (paralogUpd gl gene1 gene2 x).cgpHeader = x.cgpHeader := by
  unfold paralogUpd
  split <;> rfl

theorem paralogUpd_identifier (gl : List gene_protein) (gene1 gene2 : String)
    (x : gene_protein) : (paralogUpd gl gene1 gene2 x).identifier = x.identifier := by
  unfold paralogUpd
  split <;> rfl

/-- C8 amended: for gene-kind paralog records, insertion is idempotent when
at most one gene of the genome carries the subject header, and under a
unique subject match a repeated identical edge leaves the subject's
identifier in the query's paralog list exactly once; for records whose hit
type does not mention "gene" (protein paralogs in particular), nothing is
ever recorded: addParalog is the identity as long as no gene has an empty
cgpHeader. -/
theorem C8_addParalog_amended (g : genome) (d : dataArgs) :
    (containsSub d.hitType "gene" = true →
      (g.geneList.filter (fun e => e.cgpHeader == d.gene2)).length ≤ 1 →
      (g.addParalog d).addParalog d = g.addParalog d) ∧
    (containsSub d.hitType "gene" = false →
      (∀ e ∈ g.geneList, e.cgpHeader ≠ "") →
      g.addParalog d = g) ∧
    (containsSub d.hitType "gene" = true →
      ∀ li q s, g.geneList.get? li = some q → (q.cgpHeader == d.gene1) = true →
        g.geneList.filter (fun e => e.cgpHeader == d.gene2) = [s] →
        s.identifier ∉ q.paralogList →
        ∃ q', ((g.addParalog d).addParalog d).geneList.get? li = some q' ∧
          q'.paralogList.count s.identifier = 1) := by
  refine ⟨?_, ?_, ?_⟩
  · intro hgene huniq
    rw [addParalog_eq_map, addParalog_eq_map]
    simp only [hgene, if_true]
    set F0 := paralogUpd g.geneList d.gene1 d.gene2 with hF0
    set L1 := g.geneList.map F0 with hL1
    have hmapid : L1.map (paralogUpd L1 d.gene1 d.gene2) = L1 := by
      refine (List.map_congr_left ?_).trans (List.map_id L1)
      intro x hx
      rcases List.mem_map.mp hx with ⟨y, hy, rfl⟩
      show paralogUpd L1 d.gene1 d.gene2 (F0 y) = id (F0 y)
      unfold paralogUpd
      rw [hF0]
      unfold paralogUpd
      by_cases hc : (y.cgpHeader == d.gene1) = true
      · rw [if_pos hc]
        rw [if_pos (by simpa using hc)]
        have hfilt : L1.filter (fun e => e.cgpHeader == d.gene2) =
            (g.geneList.filter (fun e => e.cgpHeader == d.gene2)).map F0 := by
          rw [hL1]
          exact filter_map_pred_inv F0 _ (fun a => by
            rw [hF0, paralogUpd_cgpHeader]) g.geneList
        cases hf : g.geneList.filter (fun e => e.cgpHeader == d.gene2) with
        | nil =>
          rw [hf, List.map_nil] at hfilt
          rw [paralogScan_filter_nil hfilt]
          rfl
        | cons s t =>
          cases t with
          | nil =>
            rw [hf] at hfilt
            simp only [List.map_cons, List.map_nil] at hfilt
            have hsid : (F0 s).identifier = s.identifier := by
              rw [hF0, paralogUpd_identifier]
            have hscan := paralogScan_filter_singleton hfilt
              (paralogScan g.geneList y.paralogList d.gene2)
            rw [hsid] at hscan
            have hmem : s.identifier ∈ paralogScan g.geneList y.paralogList d.gene2 := by
              rw [paralogScan_filter_singleton hf]
              by_cases hm : s.identifier ∈ y.paralogList
              · rw [if_pos hm]; exact hm
              · rw [if_neg hm]; simp
            rw [hscan, if_pos hmem]
            rfl
          | cons s2 t2 =>
            rw [hf] at huniq
            simp at huniq
      · rw [if_neg hc]
        rw [if_neg (by simpa using hc)]
        rfl
    rw [hmapid]
  · intro hgene hne
    have hmap : g.geneList.map (paralogUpd g.geneList "" "") = g.geneList := by
      refine (List.map_congr_left ?_).trans (List.map_id g.geneList)
      intro x hx
      unfold paralogUpd
      rw [if_neg (by simpa using hne x hx)]
      rfl
    have h1 : g.addParalog d =
        { g with geneList := (g.geneList.map (paralogUpd g.geneList "" "")) } := by
      rw [addParalog_eq_map, hgene]
      rfl
    rw [h1, hmap]
  · intro hgene li q s hq hqh hf hnm
    rw [addParalog_eq_map, addParalog_eq_map]
    simp only [hgene, if_true]
    set F0 := paralogUpd g.geneList d.gene1 d.gene2 with hF0
    set L1 := g.geneList.map F0 with hL1
    set F1 := paralogUpd L1 d.gene1 d.gene2 with hF1
    refine ⟨F1 (F0 q), ?_, ?_⟩
    · rw [hL1, List.get?_map, List.get?_map, hq]
      rfl
    · have hq1 : F0 q = { q with paralogList := q.paralogList ++ [s.identifier] } := by
        rw [hF0]
        unfold paralogUpd
        rw [if_pos hqh, paralogScan_filter_singleton hf, if_neg hnm]
      have hfilt : L1.filter (fun e => e.cgpHeader == d.gene2) =
          (g.geneList.filter (fun e => e.cgpHeader == d.gene2)).map F0 := by
        rw [hL1]
        exact filter_map_pred_inv F0 _ (fun a => by rw [hF0, paralogUpd_cgpHeader]) g.geneList
      rw [hf] at hfilt
      simp only [List.map_cons, List.map_nil] at hfilt
      have hq2 : F1 (F0 q) = F0 q := by
        rw [hF1]
        unfold paralogUpd
        rw [if_pos (by rw [hF0, paralogUpd_cgpHeader]; exact hqh)]
        rw [paralogScan_filter_singleton hfilt]
        rw [show (F0 s).identifier = s.identifier from by rw [hF0, paralogUpd_identifier]]
        rw [if_pos (by rw [hq1]; simp)]
      rw [hq2, hq1]
      simp only [List.count_append]
      rw [List.count_eq_zero.mpr hnm]
      simp
  done

/-- A genome in which two genes share the subject header "s". -/
def c8g : genome :=
  { name := "G", geneList :=
      [{ name := "q1", cgpHeader := "q1", identifier := "G:c:q1", contigName := "c" },
       { name := "s", cgpHeader := "s", identifier := "G:c1:s", contigName := "c1" },
       { name := "s", cgpHeader := "s", identifier := "G:c2:s", contigName := "c2" }] }

/-- A gene paralog record between header q1 and header s. -/
def c8d : dataArgs :=
  { genome1 := "G", gene1 := "q1", gene2 := "s", hitType := "gene_paralog" }

/-- Counterexample to C8 as stated: committing the same paralog edge twice
appends a second identifier when two genes carry the subject header - the
query's paralog list has length 2 after the repeat, not 1. -/
theorem C8_paralog_not_idempotent_counterexample :
    ((c8g.addParalog c8d).geneList.map (fun e => e.paralogList)
        = [["G:c1:s"], [], []]) ∧
    (((c8g.addParalog c8d).addParalog c8d).geneList.map (fun e => e.paralogList)
        = [["G:c1:s", "G:c2:s"], [], []]) :=
  ⟨by decide, by decide⟩

/-- A genome with unique headers for the C8 witness. -/
def c8gu : genome :=
  { name := "G", geneList :=
      [{ name := "q1", cgpHeader := "q1", identifier := "G:c:q1", contigName := "c" },
       { name := "s", cgpHeader := "s", identifier := "G:c1:s", contigName := "c1" }] }

/-- A protein paralog record. -/
def c8dp : dataArgs :=
  { genome1 := "G", protein1 := "p1", protein2 := "p2", hitType := "protein_paralog" }

/-- Witness for C8 at a concrete genome with a unique subject header. -/
theorem C8_addParalog_amended_witness :
    ((c8gu.addParalog c8d).addParalog c8d = c8gu.addParalog c8d) ∧
    (c8gu.addParalog c8dp = c8gu) ∧
    (∃ q', ((c8gu.addParalog c8d).addParalog c8d).geneList.get? 0 = some q' ∧
      q'.paralogList.count "G:c1:s" = 1) :=
  ⟨(C8_addParalog_amended c8gu c8d).1 (by decide) (by decide),
   (C8_addParalog_amended c8gu c8dp).2.1 (by decide) (by decide),
   by
    rcases (C8_addParalog_amended c8gu c8d).2.2 (by decide) 0
        (c8gu.geneList.getD 0 {}) (c8gu.geneList.getD 1 {})
        (by decide) (by decide) (by decide) (by decide) with ⟨q', hq', hc⟩
    exact ⟨q', hq', hc⟩⟩

end Genomics
